import Mathlib

/-!
# Job execution engine: data model, claim-and-execute protocol, checkpoint/resume

A shallow embedding of the Payload jobs-queue engine (tasks, workflows,
jobs, queues, runners).  The repository ships only the documentation of
this engine, so every definition below is modelled from the spec: the
data model of §3, the Job Store contract of §4.2, the Task Executor of
§4.3, the Workflow Orchestrator of §4.4 and the Runner of §4.5.
Handlers are modelled as pure functions of the input value and the
attempt index, so that the deterministic replay of a workflow handler
against its growing checkpoint ledger is an ordinary recursive function.
-/

namespace Payload

/-- Modelled from the spec: values flowing through handlers (inputs and
outputs) are opaque to the engine; we model them as natural numbers. -/
abbrev Val := Nat

/-- Modelled from the spec: ErrorInfo recorded in a StepRecord. -/
abbrev Err := String

/-- Modelled from the spec §3: Job `status` is one of queued, running,
completed, failed. -/
inductive JobStatus where
  | queued
  | running
  | completed
  | failed
deriving DecidableEq, Repr

/-- Modelled from the spec §3: a StepRecord
`{complete: bool, output: value, error?: ErrorInfo, attempts: int}`. -/
structure StepRecord where
  complete : Bool
  output : Val
  error : Option Err
  attempts : Nat
deriving DecidableEq, Repr

/-- Modelled from the spec §3: the checkpoint ledger `taskStatus`,
a mapping from (task-slug, step-id) to StepRecord. -/
abbrev Ledger := List ((String × String) × StepRecord)

/-- Lookup of a (slug, stepId) key in the checkpoint ledger. -/
def ledLookup : Ledger → (String × String) → Option StepRecord
  | [], _ => none
  | (k', r) :: rest, k => if k' = k then some r else ledLookup rest k

/-- Idempotent upsert of a (slug, stepId) key in the checkpoint ledger,
modelling the Job Store's `updateCheckpoint` write (§4.2). -/
def ledSet : Ledger → (String × String) → StepRecord → Ledger
  | [], k, r => [(k, r)]
  | (k', r') :: rest, k, r =>
    if k' = k then (k, r) :: rest else (k', r') :: ledSet rest k r

/-- Observable execution events: handler invocations and the best-effort
`onSuccess` / `onFail` callbacks of §4.3.  `calledOnSuccess` records
whether the callback itself succeeded. -/
inductive Event where
  | invoked (slug stepId : String)
  | calledOnSuccess (slug stepId : String) (ok : Bool)
  | calledOnFail (slug stepId : String)
deriving DecidableEq, Repr

/-- The (slug, stepId) keys whose handler was actually invoked in an
event trace. -/
def invokedKeys (ev : List Event) : List (String × String) :=
  ev.filterMap fun e =>
    match e with
    | .invoked s i => some (s, i)
    | _ => none

/-- Modelled from the spec §3: a TaskDefinition with slug, input/output
schema, handler reference, retry policy and optional callbacks.  The
handler is modelled as a pure function of the input and the 0-based
attempt index; the callbacks may themselves fail. -/
structure TaskDef where
  slug : String
  inputSchema : Val → Bool
  outputSchema : Val → Bool
  handler : Val → Nat → Except Err Val
  retries : Nat
  onSuccess : Option (Val → Except Err Unit)
  onFail : Option (Err → Except Err Unit)

/-- Outcome of one Task Executor pass over a step (§4.3): success with
an output, a recoverable failure with retries remaining (signalled back
to the caller as "retry"), or a terminal failure. -/
inductive TaskOutcome where
  | ok (output : Val)
  | retry
  | failed (e : Err)
deriving DecidableEq, Repr

/-- The StepRecord written on a successful attempt:
`{complete := true, output, attempts}` (§4.3). -/
def successRecord (out : Val) (attempts : Nat) : StepRecord :=
  { complete := true, output := out, error := none, attempts := attempts }

/-- The StepRecord written on a failed attempt:
`{complete := false, error, attempts}` (§4.3). -/
def failRecord (e : Err) (attempts : Nat) : StepRecord :=
  { complete := false, output := 0, error := some e, attempts := attempts }

/-- Events of a successful attempt: the invocation, then the
best-effort `onSuccess` callback when configured (recording whether the
callback itself succeeded). -/
def successEvents (td : TaskDef) (stepId : String) (out : Val) :
    List Event :=
  match td.onSuccess with
  | none => [Event.invoked td.slug stepId]
  | some cb =>
    match cb out with
    | .ok _ =>
      [Event.invoked td.slug stepId,
       Event.calledOnSuccess td.slug stepId true]
    | .error _ =>
      [Event.invoked td.slug stepId,
       Event.calledOnSuccess td.slug stepId false]

/-- Events of a terminally failed attempt: the invocation, then the
`onFail` callback when configured. -/
def failEvents (td : TaskDef) (stepId : String) : List Event :=
  match td.onFail with
  | none => [Event.invoked td.slug stepId]
  | some _ =>
    [Event.invoked td.slug stepId, Event.calledOnFail td.slug stepId]

/-- Modelled from the spec §4.3 step 2: one fresh handler attempt, `n`
prior attempts having been recorded.  On success (conforming to the
output schema) the StepRecord `{complete := true, output, attempts := n+1}`
is written and `onSuccess` is invoked best-effort; a failure inside
`onSuccess` does not revert the recorded success.  On handler failure
the record `{complete := false, error, attempts := n+1}` is written and
the outcome is `retry` when `attempts ≤ retries`, else terminal with
`onFail` invoked.  A handler output violating its own output schema is
treated as a terminal task failure (§7). -/
def execAttempt (td : TaskDef) (stepId : String) (input : Val) (l : Ledger)
    (n : Nat) : TaskOutcome × Ledger × List Event :=
  let k := (td.slug, stepId)
  match td.handler input n with
  | .ok out =>
    if td.outputSchema out then
      (.ok out, ledSet l k (successRecord out (n + 1)),
       successEvents td stepId out)
    else
      (.failed "OutputSchemaViolation",
       ledSet l k (failRecord "OutputSchemaViolation" (n + 1)),
       failEvents td stepId)
  | .error e =>
    if n + 1 ≤ td.retries then
      (.retry, ledSet l k (failRecord e (n + 1)),
       [Event.invoked td.slug stepId])
    else
      (.failed e, ledSet l k (failRecord e (n + 1)), failEvents td stepId)

/-- Modelled from the spec §4.3 step 1: the Task Executor.  If the
in-progress StepRecord for (slug, stepId) already has `complete = true`
the cached output is returned immediately and no handler invocation
occurs; otherwise one fresh attempt is made, resuming the recorded
`attempts` counter. -/
def execTask (td : TaskDef) (stepId : String) (input : Val) (l : Ledger) :
    TaskOutcome × Ledger × List Event :=
  match ledLookup l (td.slug, stepId) with
  | some r =>
    if r.complete then (.ok r.output, l, [])
    else execAttempt td stepId input l r.attempts
  | none => execAttempt td stepId input l 0

/-- Modelled from the spec §4.3 edge case: a task supplied inline at
call time uses the reserved slug `inline` for its StepRecord bucket and
has no statically known schema — validation is skipped by design. -/
def inlineTaskDef (handler : Val → Nat → Except Err Val) : TaskDef :=
  { slug := "inline", inputSchema := fun _ => true,
    outputSchema := fun _ => true, handler := handler, retries := 0,
    onSuccess := none, onFail := none }

/-- Modelled from the spec §4.4 and §9: a workflow handler is a
deterministic program over the `runTask` / `runTaskInline` capabilities.
Each call names a (slug, stepId) and an input, and the rest of the
handler is a continuation consuming the step's output — so later code
(including branches and inputs of later calls) may depend on earlier
outputs, exactly as in the replay-based design. -/
inductive WfProg where
  | done
  | call (taskSlug stepId : String) (input : Val) (k : Val → WfProg)
  | callInline (stepId : String) (handler : Val → Nat → Except Err Val)
      (input : Val) (k : Val → WfProg)

/-- Modelled from the spec §3: a WorkflowDefinition. -/
structure WorkflowDef where
  slug : String
  inputSchema : Val → Bool
  prog : Val → WfProg
  defaultQueue : String

/-- Modelled from the spec §4.1: the immutable Definition Registry. -/
structure Registry where
  tasks : List TaskDef
  workflows : List WorkflowDef

/-- Resolve a task slug in the registry. -/
def Registry.findTask (reg : Registry) (slug : String) : Option TaskDef :=
  reg.tasks.find? fun td => td.slug == slug

/-- Resolve a workflow slug in the registry. -/
def Registry.findWorkflow (reg : Registry) (slug : String) :
    Option WorkflowDef :=
  reg.workflows.find? fun wd => wd.slug == slug

/-- Modelled from the spec §4.4: the `runTask(taskSlug, stepId, input)`
capability, delegating to the Task Executor scoped to bucket
`taskSlug`. -/
def runTask (reg : Registry) (taskSlug stepId : String) (input : Val)
    (l : Ledger) : TaskOutcome × Ledger × List Event :=
  match reg.findTask taskSlug with
  | none => (.failed "UnknownDefinition", l, [])
  | some td => execTask td stepId input l

/-- Modelled from the spec §4.4: the `runTaskInline` capability —
identical mechanics, bucket fixed to `inline`, no predeclared schema. -/
def runTaskInline (stepId : String) (handler : Val → Nat → Except Err Val)
    (input : Val) (l : Ledger) : TaskOutcome × Ledger × List Event :=
  execTask (inlineTaskDef handler) stepId input l

/-- Outcome of one full workflow-handler invocation pass (§4.4 state
machine): ran to completion, abandoned awaiting a retry, or terminally
failed. -/
inductive WfResult where
  | completed
  | retry
  | failed (e : Err)
deriving DecidableEq, Repr

/-- Modelled from the spec §4.4: one invocation pass of a workflow
handler against the current checkpoint ledger.  Each `runTask` /
`runTaskInline` call either returns the cached or fresh output to the
continuation, or — on a recoverable step failure — abandons the entire
handler invocation at that point (nothing after the call runs this
pass); a terminally failed step fails the whole pass. -/
def runProg (reg : Registry) (p : WfProg) (l : Ledger) :
    WfResult × Ledger × List Event :=
  match p with
  | .done => (.completed, l, [])
  | .call slug stepId input k =>
    match runTask reg slug stepId input l with
    | (.ok out, l', ev) =>
      let (r, l'', ev') := runProg reg (k out) l'
      (r, l'', ev ++ ev')
    | (.retry, l', ev) => (.retry, l', ev)
    | (.failed e, l', ev) => (.failed e, l', ev)
  | .callInline stepId h input k =>
    match runTaskInline stepId h input l with
    | (.ok out, l', ev) =>
      let (r, l'', ev') := runProg reg (k out) l'
      (r, l'', ev ++ ev')
    | (.retry, l', ev) => (.retry, l', ev)
    | (.failed e, l', ev) => (.failed e, l', ev)

/-- Modelled from the spec §3: a Job's `kind` is a tagged union
referencing one task or workflow slug. -/
inductive JobKind where
  | task (slug : String)
  | workflow (slug : String)
deriving DecidableEq, Repr

/-- Modelled from the spec §3: the persisted Job entity. -/
structure Job where
  id : Nat
  kind : JobKind
  input : Val
  queue : String
  status : JobStatus
  taskStatus : Ledger
  totalTried : Nat
  createdAt : Nat
  updatedAt : Nat
  lock : Option Nat
deriving DecidableEq, Repr

/-- Modelled from the spec §4.2: the durable Job Store — the list of
persisted jobs plus the store-assigned id counter. -/
structure Store where
  jobs : List Job
  nextId : Nat
deriving DecidableEq, Repr

/-- Modelled from the spec §7: the enqueue-time error taxonomy. -/
inductive EnqueueError where
  | UnknownDefinition
  | SchemaValidationError
deriving DecidableEq, Repr

/-- The input schema the referenced definition imposes on an enqueued
job, if the referenced slug exists. -/
def lookupInputSchema (reg : Registry) (kind : JobKind) :
    Option (Val → Bool) :=
  match kind with
  | .task s => (reg.findTask s).map (·.inputSchema)
  | .workflow s => (reg.findWorkflow s).map (·.inputSchema)

/-- The queue an enqueued job lands in when none is given: `"default"`
for tasks, the workflow's `defaultQueue` for workflows (§3). -/
def defaultQueueFor (reg : Registry) (kind : JobKind) : String :=
  match kind with
  | .task _ => "default"
  | .workflow s =>
    match reg.findWorkflow s with
    | some wd => wd.defaultQueue
    | none => "default"

/-- Modelled from the spec §4.2: `enqueue` — the referenced slug must
exist (`UnknownDefinition` otherwise), the input is validated against
the definition's schema (`SchemaValidationError` on mismatch), and only
then is a Job inserted with status `queued`.  On failure the store is
returned unchanged: no Job is created. -/
def enqueue (reg : Registry) (st : Store) (kind : JobKind) (input : Val)
    (queue : Option String) (now : Nat) : Except EnqueueError Job × Store :=
  match lookupInputSchema reg kind with
  | none => (.error .UnknownDefinition, st)
  | some sch =>
    if sch input then
      let j : Job :=
        { id := st.nextId, kind := kind, input := input,
          queue := queue.getD (defaultQueueFor reg kind),
          status := .queued, taskStatus := [], totalTried := 0,
          createdAt := now, updatedAt := now, lock := none }
      (.ok j, { jobs := st.jobs ++ [j], nextId := st.nextId + 1 })
    else
      (.error .SchemaValidationError, st)

/-- Whether a job is a `queued` member of the named queue. -/
def isQueuedIn (q : String) (j : Job) : Prop :=
  j.queue = q ∧ j.status = .queued

instance (q : String) (j : Job) : Decidable (isQueuedIn q j) := by
  unfold isQueuedIn; infer_instance

/-- The oldest `queued` job of a queue, FIFO by `createdAt` (ties broken
towards the earlier store position). -/
def oldestQueued : List Job → String → Option Job
  | [], _ => none
  | j :: rest, q =>
    match oldestQueued rest q with
    | none => if isQueuedIn q j then some j else none
    | some b =>
      if isQueuedIn q j then
        if j.createdAt ≤ b.createdAt then some j else some b
      else some b

/-- A job as mutated by a successful claim: `running`, holding the
caller's opaque lock token. -/
def claimedJob (j : Job) (now tok : Nat) : Job :=
  { j with status := .running, lock := some tok, updatedAt := now }

/-- Modelled from the spec §4.2 and §5: `claimNext(queue, now)` —
atomically selects the oldest `queued` job of the queue (FIFO by
`createdAt`) and transitions it to `running`, associating the caller's
opaque lock token.  Atomicity means concurrent calls interleave as a
sequence of these store-level steps. -/
def claimNext (st : Store) (q : String) (now tok : Nat) :
    Option Job × Store :=
  match oldestQueued st.jobs q with
  | none => (none, st)
  | some j =>
    (some (claimedJob j now tok),
     { st with
        jobs := st.jobs.map fun e =>
          if e.id = j.id then claimedJob e now tok else e })

/-- Modelled from the spec §4.2: `finalize(jobId, status)` — transitions
the job to a terminal status or back to `queued` (retryable failure),
releasing the lock and persisting the checkpoint ledger of the pass. -/
def finalize (st : Store) (jobId : Nat) (newStatus : JobStatus)
    (l : Ledger) (now : Nat) : Store :=
  { st with
     jobs := st.jobs.map fun e =>
       if e.id = jobId then
         { e with status := newStatus, taskStatus := l, lock := none,
                  totalTried := e.totalTried + 1, updatedAt := now }
       else e }

/-- Modelled from the spec: the step-id bucket used for the single task
of a task-kind job (the docs use caller-supplied ids such as `"1"`). -/
def topLevelStepId : String := "1"

/-- Modelled from the spec §4.5: dispatch of a claimed job by `kind` to
the Task Executor (§4.3) or the Workflow Orchestrator (§4.4). -/
def execJob (reg : Registry) (j : Job) : WfResult × Ledger × List Event :=
  match j.kind with
  | .task slug =>
    match runTask reg slug topLevelStepId j.input j.taskStatus with
    | (.ok _, l', ev) => (.completed, l', ev)
    | (.retry, l', ev) => (.retry, l', ev)
    | (.failed e, l', ev) => (.failed e, l', ev)
  | .workflow slug =>
    match reg.findWorkflow slug with
    | none => (.failed "UnknownDefinition", j.taskStatus, [])
    | some wd => runProg reg (wd.prog j.input) j.taskStatus

/-- Modelled from the spec §4.5: how the Runner finalizes a pass —
completed and terminally failed jobs become terminal, a pass abandoned
awaiting a retry returns the job to `queued`. -/
def statusOfResult : WfResult → JobStatus
  | .completed => .completed
  | .retry => .queued
  | .failed _ => .failed

/-- Modelled from the spec §4.5: one iteration of the Runner loop —
`claimNext`, dispatch by kind, `finalize`.  Returns the new store and
the pass's event trace. -/
def runnerPassOne (reg : Registry) (st : Store) (q : String)
    (now tok : Nat) : Store × List Event :=
  match claimNext st q now tok with
  | (none, st') => (st', [])
  | (some j, st') =>
    let (r, l', ev) := execJob reg j
    (finalize st' j.id (statusOfResult r) l' now, ev)

/-- Iterated Runner passes over one queue (pass `i` uses `i` as both
clock and lock token), accumulating the event traces. -/
def runnerPasses (reg : Registry) (q : String) :
    Nat → Store → Store × List Event
  | 0, st => (st, [])
  | n + 1, st =>
    let (st', ev) := runnerPassOne reg st q n n
    let (st'', ev') := runnerPasses reg q n st'
    (st'', ev ++ ev')

/-- A sequence of atomic `claimNext` calls, one per caller token — the
store-level interleaving of that many concurrent callers (§5: the claim
step is a single atomic conditional update). -/
def claimAll (q : String) (now : Nat) :
    Store → List Nat → List (Option Job) × Store
  | st, [] => ([], st)
  | st, t :: ts =>
    let (oj, st') := claimNext st q now t
    let (rest, st'') := claimAll q now st' ts
    (oj :: rest, st'')

/-! ## Ledger lemmas -/

theorem ledLookup_ledSet_self (l : Ledger) (k : String × String)
    (r : StepRecord) : ledLookup (ledSet l k r) k = some r := by
  induction l with
  | nil => simp [ledSet, ledLookup]
  | cons hd tl ih =>
    obtain ⟨k', r'⟩ := hd
    by_cases h : k' = k
    · simp [ledSet, h, ledLookup]
    · simp [ledSet, h, ledLookup, ih]

theorem ledLookup_ledSet_ne (l : Ledger) {k k' : String × String}
    (r : StepRecord) (h : k' ≠ k) :
    ledLookup (ledSet l k r) k' = ledLookup l k' := by
  induction l with
  | nil => simp [ledSet, ledLookup, Ne.symm h]
  | cons hd tl ih =>
    obtain ⟨k'', r''⟩ := hd
    by_cases hk : k'' = k
    · subst hk
      simp [ledSet, ledLookup, Ne.symm h]
    · simp [ledSet, hk, ledLookup, ih]

/-! ## Task Executor characterization -/

theorem invokedKeys_successEvents (td : TaskDef) (stepId : String)
    (out : Val) :
    invokedKeys (successEvents td stepId out) = [(td.slug, stepId)] := by
  unfold successEvents
  cases td.onSuccess with
  | none => simp [invokedKeys]
  | some cb => cases h : cb out <;> simp [h, invokedKeys]

theorem invokedKeys_failEvents (td : TaskDef) (stepId : String) :
    invokedKeys (failEvents td stepId) = [(td.slug, stepId)] := by
  unfold failEvents
  cases td.onFail <;> simp [invokedKeys]

theorem execAttempt_handler_ok {td : TaskDef} {input out : Val} {n : Nat}
    (stepId : String) (l : Ledger)
    (ha : td.handler input n = .ok out)
    (hs : td.outputSchema out = true) :
    execAttempt td stepId input l n =
      (.ok out, ledSet l (td.slug, stepId) (successRecord out (n + 1)),
       successEvents td stepId out) := by
  unfold execAttempt
  rw [ha]
  simp [hs]

theorem execAttempt_handler_error_retry {td : TaskDef} {input : Val}
    {e : Err} {n : Nat} (stepId : String) (l : Ledger)
    (ha : td.handler input n = .error e)
    (hr : n + 1 ≤ td.retries) :
    execAttempt td stepId input l n =
      (.retry, ledSet l (td.slug, stepId) (failRecord e (n + 1)),
       [Event.invoked td.slug stepId]) := by
  unfold execAttempt
  rw [ha]
  simp [hr]

theorem execAttempt_handler_error_exhausted {td : TaskDef} {input : Val}
    {e : Err} {n : Nat} (stepId : String) (l : Ledger)
    (ha : td.handler input n = .error e)
    (hr : ¬ n + 1 ≤ td.retries) :
    execAttempt td stepId input l n =
      (.failed e, ledSet l (td.slug, stepId) (failRecord e (n + 1)),
       failEvents td stepId) := by
  unfold execAttempt
  rw [ha]
  simp [hr]

theorem execAttempt_schema_violation {td : TaskDef} {input out : Val}
    {n : Nat} (stepId : String) (l : Ledger)
    (ha : td.handler input n = .ok out)
    (hs : td.outputSchema out = false) :
    execAttempt td stepId input l n =
      (.failed "OutputSchemaViolation",
       ledSet l (td.slug, stepId)
         (failRecord "OutputSchemaViolation" (n + 1)),
       failEvents td stepId) := by
  unfold execAttempt
  rw [ha]
  simp [hs]

/-- Every fresh attempt writes exactly the (slug, stepId) key, with the
attempts counter bumped to `n + 1`, the record complete exactly on
success, and exactly one handler invocation. -/
theorem execAttempt_shape (td : TaskDef) (stepId : String) (input : Val)
    (l : Ledger) (n : Nat) :
    ∃ r : StepRecord,
      (execAttempt td stepId input l n).2.1 =
        ledSet l (td.slug, stepId) r ∧
      r.attempts = n + 1 ∧
      (r.complete = true ↔
        ∃ out, (execAttempt td stepId input l n).1 = .ok out) ∧
      invokedKeys (execAttempt td stepId input l n).2.2 =
        [(td.slug, stepId)] := by
  cases ha : td.handler input n with
  | ok out =>
    by_cases hs : td.outputSchema out
    · rw [execAttempt_handler_ok stepId l ha hs]
      exact ⟨successRecord out (n + 1), rfl, rfl,
        by simp [successRecord], invokedKeys_successEvents td stepId out⟩
    · rw [execAttempt_schema_violation stepId l ha (by simpa using hs)]
      exact ⟨failRecord "OutputSchemaViolation" (n + 1), rfl, rfl,
        by simp [failRecord], invokedKeys_failEvents td stepId⟩
  | error e =>
    by_cases hr : n + 1 ≤ td.retries
    · rw [execAttempt_handler_error_retry stepId l ha hr]
      exact ⟨failRecord e (n + 1), rfl, rfl, by simp [failRecord],
        by simp [invokedKeys]⟩
    · rw [execAttempt_handler_error_exhausted stepId l ha hr]
      exact ⟨failRecord e (n + 1), rfl, rfl, by simp [failRecord],
        invokedKeys_failEvents td stepId⟩

theorem execTask_cached {td : TaskDef} {l : Ledger} {r : StepRecord}
    (stepId : String) (input : Val)
    (h : ledLookup l (td.slug, stepId) = some r)
    (hc : r.complete = true) :
    execTask td stepId input l = (.ok r.output, l, []) := by
  unfold execTask
  rw [h]
  simp [hc]

theorem execTask_fresh_some {td : TaskDef} {l : Ledger} {r : StepRecord}
    (stepId : String) (input : Val)
    (h : ledLookup l (td.slug, stepId) = some r)
    (hc : r.complete = false) :
    execTask td stepId input l = execAttempt td stepId input l r.attempts := by
  unfold execTask
  rw [h]
  simp [hc]

theorem execTask_fresh_none {td : TaskDef} {l : Ledger}
    (stepId : String) (input : Val)
    (h : ledLookup l (td.slug, stepId) = none) :
    execTask td stepId input l = execAttempt td stepId input l 0 := by
  unfold execTask
  rw [h]

theorem invokedKeys_append (a b : List Event) :
    invokedKeys (a ++ b) = invokedKeys a ++ invokedKeys b :=
  List.filterMap_append a b _

/-- One Task Executor pass invokes the handler at most once: the pass's
invocation list is empty (cache hit) or exactly the step's own key. -/
theorem execTask_invokedKeys (td : TaskDef) (stepId : String) (input : Val)
    (l : Ledger) :
    invokedKeys (execTask td stepId input l).2.2 = [] ∨
    invokedKeys (execTask td stepId input l).2.2 = [(td.slug, stepId)] := by
  cases h : ledLookup l (td.slug, stepId) with
  | none =>
    right
    rw [execTask_fresh_none stepId input h]
    obtain ⟨r, -, -, -, hinv⟩ := execAttempt_shape td stepId input l 0
    exact hinv
  | some r =>
    cases hc : r.complete with
    | true =>
      left
      rw [execTask_cached stepId input h hc]
      simp [invokedKeys]
    | false =>
      right
      rw [execTask_fresh_some stepId input h hc]
      obtain ⟨rr, -, -, -, hinv⟩ :=
        execAttempt_shape td stepId input l r.attempts
      exact hinv

/-- Modelled invariant (§3): a completed StepRecord is never mutated by
a Task Executor pass — whatever step it runs. -/
theorem execTask_preserves_complete {td : TaskDef} {l : Ledger}
    {k' : String × String} {r' : StepRecord}
    (stepId : String) (input : Val)
    (h' : ledLookup l k' = some r') (hc' : r'.complete = true) :
    ledLookup (execTask td stepId input l).2.1 k' = some r' := by
  cases h : ledLookup l (td.slug, stepId) with
  | none =>
    rw [execTask_fresh_none stepId input h]
    obtain ⟨r, hl, -, -, -⟩ := execAttempt_shape td stepId input l 0
    have hne : k' ≠ (td.slug, stepId) := by
      intro he
      rw [he, h] at h'
      cases h'
    rw [hl, ledLookup_ledSet_ne _ _ hne]
    exact h'
  | some r =>
    cases hc : r.complete with
    | true =>
      rw [execTask_cached stepId input h hc]
      exact h'
    | false =>
      rw [execTask_fresh_some stepId input h hc]
      obtain ⟨rr, hl, -, -, -⟩ :=
        execAttempt_shape td stepId input l r.attempts
      have hne : k' ≠ (td.slug, stepId) := by
        intro he
        rw [he, h] at h'
        injection h' with hrr
        rw [← hrr] at hc'
        rw [hc'] at hc
        cases hc
      rw [hl, ledLookup_ledSet_ne _ _ hne]
      exact h'

/-- A step whose StepRecord is already complete is never the step whose
handler a Task Executor pass invokes. -/
theorem execTask_not_invoked_complete {td : TaskDef} {l : Ledger}
    {k' : String × String} {r' : StepRecord}
    (stepId : String) (input : Val)
    (h' : ledLookup l k' = some r') (hc' : r'.complete = true) :
    k' ∉ invokedKeys (execTask td stepId input l).2.2 := by
  cases h : ledLookup l (td.slug, stepId) with
  | none =>
    rw [execTask_fresh_none stepId input h]
    obtain ⟨r, -, -, -, hinv⟩ := execAttempt_shape td stepId input l 0
    rw [hinv]
    intro hmem
    rw [List.mem_singleton] at hmem
    rw [hmem, h] at h'
    cases h'
  | some r =>
    cases hc : r.complete with
    | true =>
      rw [execTask_cached stepId input h hc]
      simp [invokedKeys]
    | false =>
      rw [execTask_fresh_some stepId input h hc]
      obtain ⟨rr, -, -, -, hinv⟩ :=
        execAttempt_shape td stepId input l r.attempts
      rw [hinv]
      intro hmem
      rw [List.mem_singleton] at hmem
      rw [hmem, h] at h'
      injection h' with hrr
      rw [← hrr] at hc'
      rw [hc'] at hc
      cases hc

theorem findTask_slug {reg : Registry} {slug : String} {td : TaskDef}
    (h : reg.findTask slug = some td) : td.slug = slug := by
  have := List.find?_some h
  exact eq_of_beq this

theorem runTask_preserves_complete {reg : Registry} {l : Ledger}
    {k' : String × String} {r' : StepRecord}
    (slug stepId : String) (input : Val)
    (h' : ledLookup l k' = some r') (hc' : r'.complete = true) :
    ledLookup (runTask reg slug stepId input l).2.1 k' = some r' := by
  unfold runTask
  cases h : reg.findTask slug with
  | none => simpa using h'
  | some td => exact execTask_preserves_complete stepId input h' hc'

theorem runTask_not_invoked_complete {reg : Registry} {l : Ledger}
    {k' : String × String} {r' : StepRecord}
    (slug stepId : String) (input : Val)
    (h' : ledLookup l k' = some r') (hc' : r'.complete = true) :
    k' ∉ invokedKeys (runTask reg slug stepId input l).2.2 := by
  unfold runTask
  cases h : reg.findTask slug with
  | none => simp [invokedKeys]
  | some td => exact execTask_not_invoked_complete stepId input h' hc'

/-! ## Workflow Orchestrator lemmas -/

/-- Modelled invariant (§3): a completed StepRecord is never mutated by
a workflow-handler invocation pass. -/
theorem runProg_preserves_complete (reg : Registry) (p : WfProg)
    {l : Ledger} {k' : String × String} {r' : StepRecord}
    (h' : ledLookup l k' = some r') (hc' : r'.complete = true) :
    ledLookup (runProg reg p l).2.1 k' = some r' := by
  induction p generalizing l with
  | done => simpa [runProg] using h'
  | call slug stepId input k ih =>
    have hpres : ledLookup (runTask reg slug stepId input l).2.1 k' =
        some r' := runTask_preserves_complete slug stepId input h' hc'
    rcases hrt : runTask reg slug stepId input l with ⟨o, l1, ev⟩
    rw [hrt] at hpres
    cases o with
    | ok out =>
      simp only [runProg, hrt]
      exact ih out hpres
    | retry =>
      simp only [runProg, hrt]
      exact hpres
    | failed e =>
      simp only [runProg, hrt]
      exact hpres
  | callInline stepId h input k ih =>
    have hpres : ledLookup (runTaskInline stepId h input l).2.1 k' =
        some r' := execTask_preserves_complete stepId input h' hc'
    rcases hrt : runTaskInline stepId h input l with ⟨o, l1, ev⟩
    rw [hrt] at hpres
    cases o with
    | ok out =>
      simp only [runProg, hrt]
      exact ih out hpres
    | retry =>
      simp only [runProg, hrt]
      exact hpres
    | failed e =>
      simp only [runProg, hrt]
      exact hpres

/-- A step already marked complete is never re-invoked by a
workflow-handler invocation pass — the heart of resume correctness. -/
theorem runProg_not_invoked_complete (reg : Registry) (p : WfProg)
    {l : Ledger} {k' : String × String} {r' : StepRecord}
    (h' : ledLookup l k' = some r') (hc' : r'.complete = true) :
    k' ∉ invokedKeys (runProg reg p l).2.2 := by
  induction p generalizing l with
  | done => simp [runProg, invokedKeys]
  | call slug stepId input k ih =>
    have hnin : k' ∉ invokedKeys (runTask reg slug stepId input l).2.2 :=
      runTask_not_invoked_complete slug stepId input h' hc'
    have hpres : ledLookup (runTask reg slug stepId input l).2.1 k' =
        some r' := runTask_preserves_complete slug stepId input h' hc'
    rcases hrt : runTask reg slug stepId input l with ⟨o, l1, ev⟩
    rw [hrt] at hnin hpres
    cases o with
    | ok out =>
      simp only [runProg, hrt, invokedKeys_append, List.mem_append]
      push_neg
      exact ⟨hnin, ih out hpres⟩
    | retry =>
      simp only [runProg, hrt]
      exact hnin
    | failed e =>
      simp only [runProg, hrt]
      exact hnin
  | callInline stepId h input k ih =>
    have hnin : k' ∉ invokedKeys (runTaskInline stepId h input l).2.2 :=
      execTask_not_invoked_complete stepId input h' hc'
    have hpres : ledLookup (runTaskInline stepId h input l).2.1 k' =
        some r' := execTask_preserves_complete stepId input h' hc'
    rcases hrt : runTaskInline stepId h input l with ⟨o, l1, ev⟩
    rw [hrt] at hnin hpres
    cases o with
    | ok out =>
      simp only [runProg, hrt, invokedKeys_append, List.mem_append]
      push_neg
      exact ⟨hnin, ih out hpres⟩
    | retry =>
      simp only [runProg, hrt]
      exact hnin
    | failed e =>
      simp only [runProg, hrt]
      exact hnin

/-! ## Job Store claiming lemmas -/

theorem oldestQueued_eq_none {jobs : List Job} {q : String} :
    oldestQueued jobs q = none ↔ ∀ x ∈ jobs, ¬ isQueuedIn q x := by
  induction jobs with
  | nil => simp [oldestQueued]
  | cons hd tl ih =>
    constructor
    · intro h
      unfold oldestQueued at h
      cases hr : oldestQueued tl q with
      | none =>
        simp only [hr] at h
        by_cases hq : isQueuedIn q hd
        · rw [if_pos hq] at h
          cases h
        · intro x hx
          rcases List.mem_cons.mp hx with hx | hx
          · rw [hx]; exact hq
          · exact (ih.mp hr) x hx
      | some b =>
        simp only [hr] at h
        by_cases hq : isQueuedIn q hd
        · rw [if_pos hq] at h
          by_cases hle : hd.createdAt ≤ b.createdAt <;>
            simp [hle] at h
        · rw [if_neg hq] at h
          cases h
    · intro h
      unfold oldestQueued
      have hr : oldestQueued tl q = none :=
        ih.mpr fun x hx => h x (List.mem_cons_of_mem hd hx)
      simp only [hr]
      rw [if_neg (h hd (List.mem_cons_self hd tl))]

theorem oldestQueued_mem {jobs : List Job} {q : String} {j : Job}
    (h : oldestQueued jobs q = some j) : j ∈ jobs ∧ isQueuedIn q j := by
  induction jobs generalizing j with
  | nil => cases h
  | cons hd tl ih =>
    unfold oldestQueued at h
    cases hr : oldestQueued tl q with
    | none =>
      simp only [hr] at h
      by_cases hq : isQueuedIn q hd
      · rw [if_pos hq] at h
        injection h with hj
        rw [← hj]
        exact ⟨List.mem_cons_self hd tl, hq⟩
      · rw [if_neg hq] at h
        cases h
    | some b =>
      simp only [hr] at h
      by_cases hq : isQueuedIn q hd
      · rw [if_pos hq] at h
        by_cases hle : hd.createdAt ≤ b.createdAt
        · rw [if_pos hle] at h
          injection h with hj
          rw [← hj]
          exact ⟨List.mem_cons_self hd tl, hq⟩
        · rw [if_neg hle] at h
          injection h with hj
          obtain ⟨hmem, hqb⟩ := ih hr
          rw [← hj]
          exact ⟨List.mem_cons_of_mem hd hmem, hqb⟩
      · rw [if_neg hq] at h
        injection h with hj
        obtain ⟨hmem, hqb⟩ := ih hr
        rw [← hj]
        exact ⟨List.mem_cons_of_mem hd hmem, hqb⟩

/-- FIFO: the selected job is oldest by `createdAt` among the queue's
queued jobs. -/
theorem oldestQueued_min {jobs : List Job} {q : String} {j : Job}
    (h : oldestQueued jobs q = some j) :
    ∀ j' ∈ jobs, isQueuedIn q j' → j.createdAt ≤ j'.createdAt := by
  induction jobs generalizing j with
  | nil => cases h
  | cons hd tl ih =>
    intro j' hmem hq'
    unfold oldestQueued at h
    rcases List.mem_cons.mp hmem with hj' | hj'
    · subst hj'
      cases hr : oldestQueued tl q with
      | none =>
        simp only [hr] at h
        rw [if_pos hq'] at h
        injection h with hj
        rw [← hj]
      | some b =>
        simp only [hr] at h
        rw [if_pos hq'] at h
        by_cases hle : j'.createdAt ≤ b.createdAt
        · rw [if_pos hle] at h
          injection h with hj
          rw [← hj]
        · rw [if_neg hle] at h
          injection h with hj
          rw [← hj]
          exact le_of_lt (lt_of_not_le hle)
    · cases hr : oldestQueued tl q with
      | none =>
        exact absurd hq' ((oldestQueued_eq_none.mp hr) j' hj')
      | some b =>
        have hb := ih hr j' hj' hq'
        simp only [hr] at h
        by_cases hq : isQueuedIn q hd
        · rw [if_pos hq] at h
          by_cases hle : hd.createdAt ≤ b.createdAt
          · rw [if_pos hle] at h
            injection h with hj
            rw [← hj]
            exact le_trans hle hb
          · rw [if_neg hle] at h
            injection h with hj
            rw [← hj]
            exact hb
        · rw [if_neg hq] at h
          injection h with hj
          rw [← hj]
          exact hb

theorem claimNext_of_none {st : Store} {q : String} (now tok : Nat)
    (h : oldestQueued st.jobs q = none) :
    claimNext st q now tok = (none, st) := by
  unfold claimNext
  rw [h]

theorem claimNext_of_some {st : Store} {q : String} {j : Job}
    (now tok : Nat) (h : oldestQueued st.jobs q = some j) :
    claimNext st q now tok =
      (some (claimedJob j now tok),
       { st with
          jobs := st.jobs.map fun e =>
            if e.id = j.id then claimedJob e now tok else e }) := by
  unfold claimNext
  rw [h]

/-- A store with no queued job in the queue is untouched by any number
of Runner passes, and no handler runs. -/
theorem runnerPasses_no_queued (reg : Registry) (q : String) (m : Nat)
    (st : Store) (h : ∀ x ∈ st.jobs, ¬ isQueuedIn q x) :
    runnerPasses reg q m st = (st, []) := by
  induction m with
  | zero => rfl
  | succ n ih =>
    have hnone : oldestQueued st.jobs q = none := oldestQueued_eq_none.mpr h
    show (let (st', ev) := runnerPassOne reg st q n n
          let (st'', ev') := runnerPasses reg q n st'
          (st'', ev ++ ev')) = (st, [])
    rw [show runnerPassOne reg st q n n = (st, []) by
      unfold runnerPassOne
      rw [claimNext_of_none n n hnone]]
    simpa using ih

/-- One Runner pass over a store holding a single queued job of the
queue: the job is claimed, dispatched, and finalized with the pass's
result and checkpoint ledger. -/
theorem runnerPassOne_singleton (reg : Registry) {j : Job} {nid : Nat}
    {q : String} (now tok : Nat) (hq : j.queue = q)
    (hst : j.status = .queued) :
    runnerPassOne reg { jobs := [j], nextId := nid } q now tok =
      ({ jobs := [{ j with
             status := statusOfResult (execJob reg j).1,
             taskStatus := (execJob reg j).2.1,
             totalTried := j.totalTried + 1,
             lock := none, updatedAt := now }],
         nextId := nid },
       (execJob reg j).2.2) := by
  have h1 : oldestQueued [j] q = some j := by
    simp [oldestQueued, isQueuedIn, hq, hst]
  have hcj : ∀ s u lk,
      execJob reg { j with status := s, updatedAt := u, lock := lk } =
        execJob reg j := fun _ _ _ => rfl
  unfold runnerPassOne
  rw [claimNext_of_some now tok h1]
  rcases hex : execJob reg j with ⟨r, l', ev⟩
  simp only [hex]
  unfold finalize
  simp [claimedJob, hex, hcj]
/-- A successful claim comes from a queued member of the store. -/
theorem claimNext_some_src {st : Store} {q : String} {now tok : Nat}
    {j : Job} {st' : Store}
    (h : claimNext st q now tok = (some j, st')) :
    ∃ b ∈ st.jobs, isQueuedIn q b ∧ j = claimedJob b now tok ∧
      st'.jobs = (st.jobs.map fun e =>
        if e.id = b.id then claimedJob e now tok else e) ∧
      ∀ j₂ ∈ st.jobs, isQueuedIn q j₂ → b.createdAt ≤ j₂.createdAt := by
  cases hcl : oldestQueued st.jobs q with
  | none =>
    rw [claimNext_of_none now tok hcl] at h
    simp at h
  | some b =>
    rw [claimNext_of_some now tok hcl] at h
    obtain ⟨hmem, hq⟩ := oldestQueued_mem hcl
    rw [Prod.mk.injEq] at h
    obtain ⟨h1, h2⟩ := h
    injection h1 with h1
    exact ⟨b, hmem, hq, h1.symm, by rw [← h2], oldestQueued_min hcl⟩

/-- After a claim, every store entry carrying the claimed job's id is
`running`. -/
theorem claimNext_id_running {st : Store} {q : String} {now tok : Nat}
    {j : Job} {st' : Store}
    (h : claimNext st q now tok = (some j, st')) :
    ∀ e ∈ st'.jobs, e.id = j.id → e.status = .running := by
  obtain ⟨b, hmem, hq, hj, hjobs, -⟩ := claimNext_some_src h
  intro e he hid
  rw [hjobs] at he
  obtain ⟨x, hx, hxe⟩ := List.mem_map.mp he
  by_cases hxb : x.id = b.id
  · rw [if_pos hxb] at hxe
    rw [← hxe]
    rfl
  · rw [if_neg hxb] at hxe
    rw [← hxe] at hid
    rw [hj] at hid
    exact absurd hid hxb

/-- `claimNext` preserves "no entry with this id is queued". -/
theorem claimNext_preserves_not_queued {st : Store} {q : String}
    {now tok : Nat} (i : Nat)
    (h : ∀ e ∈ st.jobs, e.id = i → e.status ≠ .queued) :
    ∀ e ∈ (claimNext st q now tok).2.jobs, e.id = i →
      e.status ≠ .queued := by
  cases hcl : oldestQueued st.jobs q with
  | none =>
    rw [claimNext_of_none now tok hcl]
    exact h
  | some b =>
    rw [claimNext_of_some now tok hcl]
    intro e he hid
    obtain ⟨x, hx, hxe⟩ := List.mem_map.mp he
    by_cases hxb : x.id = b.id
    · rw [if_pos hxb] at hxe
      rw [← hxe]
      intro hc
      cases hc
    · rw [if_neg hxb] at hxe
      rw [← hxe] at hid ⊢
      exact h x hx hid

/-- No job whose id is nowhere queued is ever claimed. -/
theorem claimAll_avoid {q : String} {now : Nat} (i : Nat) :
    ∀ (toks : List Nat) (st : Store),
      (∀ e ∈ st.jobs, e.id = i → e.status ≠ .queued) →
      ∀ jj ∈ ((claimAll q now st toks).1.filterMap id), jj.id ≠ i := by
  intro toks
  induction toks with
  | nil =>
    intro st _ jj hjj
    simp [claimAll] at hjj
  | cons t ts ih =>
    intro st h jj hjj
    rcases hcn : claimNext st q now t with ⟨oj, st'⟩
    have hrec := @claimNext_preserves_not_queued st q now t i h
    rw [hcn] at hrec
    simp only [claimAll, hcn] at hjj
    cases oj with
    | none =>
      simp only [List.filterMap_cons, id_eq] at hjj
      exact ih st' hrec jj hjj
    | some j =>
      simp only [List.filterMap_cons, id_eq] at hjj
      rcases List.mem_cons.mp hjj with hjj | hjj
      · subst hjj
        obtain ⟨b, hbm, hbq, hbj, -⟩ := claimNext_some_src hcn
        intro hji
        have : b.id = i := by rw [hbj] at hji; exact hji
        exact h b hbm this hbq.2
      · exact ih st' hrec jj hjj

/-- Claimed jobs across any sequence of atomic claims have pairwise
distinct ids: no job is ever claimed twice. -/
theorem claimAll_nodup {q : String} {now : Nat} :
    ∀ (toks : List Nat) (st : Store),
      (((claimAll q now st toks).1.filterMap id).map Job.id).Nodup := by
  intro toks
  induction toks with
  | nil =>
    intro st
    simp [claimAll]
  | cons t ts ih =>
    intro st
    rcases hcn : claimNext st q now t with ⟨oj, st'⟩
    simp only [claimAll, hcn]
    cases oj with
    | none =>
      simp only [List.filterMap_cons, id_eq]
      exact ih st'
    | some j =>
      simp only [List.filterMap_cons, id_eq, List.map_cons,
        List.nodup_cons]
      refine ⟨?_, ih st'⟩
      intro hmem
      obtain ⟨jj, hjj, hjid⟩ := List.mem_map.mp hmem
      have hnq : ∀ e ∈ st'.jobs, e.id = j.id → e.status ≠ .queued := by
        intro e he hid
        rw [claimNext_id_running hcn e he hid]
        intro hc
        cases hc
      exact claimAll_avoid j.id ts st' hnq jj hjj hjid

/-- Two distinct members both satisfying a predicate force a count of
at least two. -/
theorem two_le_countP {α : Type} (P : α → Bool) :
    ∀ {l : List α} {a b : α}, a ∈ l → b ∈ l → a ≠ b →
      P a = true → P b = true → 2 ≤ l.countP P := by
  intro l
  induction l with
  | nil =>
    intro a b ha _ _ _ _
    cases ha
  | cons x tl ih =>
    intro a b ha hb hne hpa hpb
    rw [List.countP_cons]
    rcases List.mem_cons.mp ha with hax | hax
    · have hbtl : b ∈ tl := by
        rcases List.mem_cons.mp hb with hbx | hbx
        · exact absurd (hax.trans hbx.symm) hne
        · exact hbx
      have h1 : 0 < tl.countP P :=
        List.countP_pos_iff.mpr ⟨b, hbtl, hpb⟩
      rw [hax] at hpa
      rw [hpa, if_pos rfl]
      omega
    · rcases List.mem_cons.mp hb with hbx | hbx
      · have h1 : 0 < tl.countP P :=
          List.countP_pos_iff.mpr ⟨a, hax, hpa⟩
        rw [hbx] at hpb
        rw [hpb, if_pos rfl]
        omega
      · have := ih hax hbx hne hpa hpb
        omega

/-- If no job of the queue is queued, every claim in a sequence comes
back empty and the store is untouched. -/
theorem claimAll_none {q : String} {now : Nat} :
    ∀ (toks : List Nat) (st : Store),
      (∀ x ∈ st.jobs, ¬ isQueuedIn q x) →
      (claimAll q now st toks) = (List.replicate toks.length none, st) := by
  intro toks
  induction toks with
  | nil =>
    intro st _
    rfl
  | cons t ts ih =>
    intro st h
    have hcn : claimNext st q now t = (none, st) :=
      claimNext_of_none now t (oldestQueued_eq_none.mpr h)
    simp only [claimAll, hcn, ih st h, List.length_cons,
      List.replicate_succ]

/-! ## Always-failing task jobs: retry counting -/

/-- Invariant of a single-job store holding a task job that has failed
`k` recoverable attempts so far and is queued awaiting retry. -/
def c3Inv (slug q : String) (input : Val) (k : Nat) (st : Store) : Prop :=
  ∃ j : Job, st.jobs = [j] ∧ j.kind = .task slug ∧ j.input = input ∧
    j.queue = q ∧ j.status = .queued ∧
    ((k = 0 ∧ ledLookup j.taskStatus (slug, topLevelStepId) = none) ∨
     (∃ r, ledLookup j.taskStatus (slug, topLevelStepId) = some r ∧
        r.complete = false ∧ r.attempts = k))

/-- Terminal state of a single-job store whose task job has failed for
good, the StepRecord having counted `a` attempts. -/
def c3Failed (slug : String) (a : Nat) (st : Store) : Prop :=
  ∃ j : Job, st.jobs = [j] ∧ j.status = .failed ∧
    ∃ r, ledLookup j.taskStatus (slug, topLevelStepId) = some r ∧
      r.complete = false ∧ r.attempts = a

/-- One Runner pass over an always-failing task job: exactly one
handler invocation; the attempts counter advances to `k + 1`, and the
job is requeued when `k + 1 ≤ retries`, terminally failed otherwise. -/
theorem c3_step {reg : Registry} {slug q : String} {td : TaskDef}
    {input : Val} {ef : Val → Nat → Err}
    (hreg : reg.findTask slug = some td)
    (hfail : ∀ v n, td.handler v n = Except.error (ef v n))
    {k : Nat} {st : Store} (hinv : c3Inv slug q input k st)
    (now tok : Nat) :
    invokedKeys (runnerPassOne reg st q now tok).2 =
      [(slug, topLevelStepId)] ∧
    ((k + 1 ≤ td.retries ∧
        c3Inv slug q input (k + 1) (runnerPassOne reg st q now tok).1) ∨
     (¬ k + 1 ≤ td.retries ∧
        c3Failed slug (k + 1) (runnerPassOne reg st q now tok).1)) := by
  obtain ⟨j, hjobs, hkind, hinput, hq, hst, hled⟩ := hinv
  obtain ⟨jobs, nid⟩ := st
  simp only at hjobs
  subst hjobs
  have htds : td.slug = slug := findTask_slug hreg
  have hexecTask : execTask td topLevelStepId j.input j.taskStatus =
      execAttempt td topLevelStepId j.input j.taskStatus k := by
    rcases hled with ⟨hk0, hnone⟩ | ⟨r, hsome, hrc, hra⟩
    · rw [hk0]
      exact execTask_fresh_none _ _ (by rw [htds]; exact hnone)
    · have h := @execTask_fresh_some td j.taskStatus r topLevelStepId
        j.input (by rw [htds]; exact hsome) hrc
      rw [hra] at h
      exact h
  rw [runnerPassOne_singleton reg now tok hq hst]
  by_cases hret : k + 1 ≤ td.retries
  · have hatt : execAttempt td topLevelStepId j.input j.taskStatus k =
        (.retry,
         ledSet j.taskStatus (td.slug, topLevelStepId)
           (failRecord (ef j.input k) (k + 1)),
         [Event.invoked td.slug topLevelStepId]) :=
      execAttempt_handler_error_retry _ _ (hfail j.input k) hret
    have hexecJob : execJob reg j =
        (.retry,
         ledSet j.taskStatus (td.slug, topLevelStepId)
           (failRecord (ef j.input k) (k + 1)),
         [Event.invoked td.slug topLevelStepId]) := by
      simp only [execJob, hkind, runTask, hreg, hexecTask, hatt]
    rw [hexecJob]
    constructor
    · simp [invokedKeys, htds]
    · left
      refine ⟨hret, ?_⟩
      refine ⟨_, rfl, by simpa using hkind, by simpa using hinput,
        by simpa using hq, by simp [statusOfResult], ?_⟩
      right
      refine ⟨failRecord (ef j.input k) (k + 1), ?_, rfl, rfl⟩
      show ledLookup (ledSet j.taskStatus (td.slug, topLevelStepId)
        (failRecord (ef j.input k) (k + 1))) (slug, topLevelStepId) = _
      rw [← htds]
      exact ledLookup_ledSet_self _ _ _
  · have hatt : execAttempt td topLevelStepId j.input j.taskStatus k =
        (.failed (ef j.input k),
         ledSet j.taskStatus (td.slug, topLevelStepId)
           (failRecord (ef j.input k) (k + 1)),
         failEvents td topLevelStepId) :=
      execAttempt_handler_error_exhausted _ _ (hfail j.input k) hret
    have hexecJob : execJob reg j =
        (.failed (ef j.input k),
         ledSet j.taskStatus (td.slug, topLevelStepId)
           (failRecord (ef j.input k) (k + 1)),
         failEvents td topLevelStepId) := by
      simp only [execJob, hkind, runTask, hreg, hexecTask, hatt]
    rw [hexecJob]
    constructor
    · rw [invokedKeys_failEvents td topLevelStepId, htds]
    · right
      refine ⟨hret, ?_⟩
      refine ⟨_, rfl, by simp [statusOfResult], ?_⟩
      refine ⟨failRecord (ef j.input k) (k + 1), ?_, rfl, rfl⟩
      show ledLookup (ledSet j.taskStatus (td.slug, topLevelStepId)
        (failRecord (ef j.input k) (k + 1))) (slug, topLevelStepId) = _
      rw [← htds]
      exact ledLookup_ledSet_self _ _ _

/-- Iterating the Runner over an always-failing task job with `k` prior
attempts: once enough passes have run, the job is terminally `failed`
with `retries + 1` recorded attempts, and exactly `retries + 1 - k`
further handler invocations happened in total. -/
theorem c3_run {reg : Registry} {slug q : String} {td : TaskDef}
    {input : Val} {ef : Val → Nat → Err}
    (hreg : reg.findTask slug = some td)
    (hfail : ∀ v n, td.handler v n = Except.error (ef v n)) :
    ∀ m k st, c3Inv slug q input k st → k ≤ td.retries →
      td.retries + 1 ≤ k + m →
      c3Failed slug (td.retries + 1) (runnerPasses reg q m st).1 ∧
      invokedKeys (runnerPasses reg q m st).2 =
        List.replicate (td.retries + 1 - k) (slug, topLevelStepId) := by
  intro m
  induction m with
  | zero =>
    intro k st _ hk hm
    omega
  | succ n ih =>
    intro k st hinv hk hm
    obtain ⟨hev, hres⟩ := c3_step hreg hfail hinv n n
    rcases hp1 : runnerPassOne reg st q n n with ⟨st', ev⟩
    rw [hp1] at hev hres
    have hrp : runnerPasses reg q (n + 1) st =
        ((runnerPasses reg q n st').1,
         ev ++ (runnerPasses reg q n st').2) := by
      show (let (st1, ev1) := runnerPassOne reg st q n n
            let (st2, ev2) := runnerPasses reg q n st1
            (st2, ev1 ++ ev2)) = _
      rw [hp1]
    rcases hres with ⟨hret, hinv'⟩ | ⟨hret, hdone⟩
    · obtain ⟨hfailst, hcount⟩ := ih (k + 1) st' hinv' hret (by omega)
      rw [hrp]
      refine ⟨hfailst, ?_⟩
      rw [invokedKeys_append, hev, hcount,
        show td.retries + 1 - k = (td.retries + 1 - (k + 1)) + 1 from
          by omega,
        List.replicate_succ]
      rfl
    · have hkN : k = td.retries := by omega
      have hnq : ∀ x ∈ st'.jobs, ¬ isQueuedIn q x := by
        obtain ⟨j', hjobs', hfailed, -⟩ := hdone
        rw [hjobs']
        intro x hx
        rw [List.mem_singleton] at hx
        subst hx
        intro hqx
        have hqs : x.status = JobStatus.queued := hqx.2
        rw [hfailed] at hqs
        cases hqs
      have hrest : runnerPasses reg q n st' = (st', []) :=
        runnerPasses_no_queued reg q n st' hnq
      rw [hrp, hrest]
      refine ⟨by rw [hkN] at hdone; exact hdone, ?_⟩
      rw [invokedKeys_append, hev, hkN]
      simp [invokedKeys]

/-- Pointwise store updates: the relation between a job list and its
image under an entry-wise update. -/
theorem forall2_map_self {α : Type} {R : α → α → Prop} (f : α → α)
    (l : List α) (h : ∀ a ∈ l, R a (f a)) :
    List.Forall₂ R l (l.map f) := by
  induction l with
  | nil => simp
  | cons hd tl ih =>
    exact List.Forall₂.cons (h hd (List.mem_cons_self hd tl))
      (ih fun a ha => h a (List.mem_cons_of_mem hd ha))

/-- A successful fresh attempt writes exactly the success record with
the returned output. -/
theorem execAttempt_ok {td : TaskDef} {stepId : String} {input out : Val}
    {l l1 : Ledger} {n : Nat} {ev1 : List Event}
    (h : execAttempt td stepId input l n = (.ok out, l1, ev1)) :
    l1 = ledSet l (td.slug, stepId) (successRecord out (n + 1)) ∧
    invokedKeys ev1 = [(td.slug, stepId)] := by
  cases ha : td.handler input n with
  | ok out' =>
    by_cases hs : td.outputSchema out'
    · rw [execAttempt_handler_ok stepId l ha hs] at h
      rw [Prod.mk.injEq, Prod.mk.injEq] at h
      obtain ⟨h1, h2, h3⟩ := h
      injection h1 with hout
      subst hout
      rw [← h2, ← h3]
      exact ⟨rfl, invokedKeys_successEvents td stepId out'⟩
    · rw [execAttempt_schema_violation stepId l ha (by simpa using hs)] at h
      cases h
  | error e =>
    by_cases hr : n + 1 ≤ td.retries
    · rw [execAttempt_handler_error_retry stepId l ha hr] at h
      cases h
    · rw [execAttempt_handler_error_exhausted stepId l ha hr] at h
      cases h

/-- A Task Executor pass that returns `ok out` leaves (or writes) a
complete StepRecord whose persisted output is exactly `out`, and
invoked the handler at most once. -/
theorem execTask_ok_record {td : TaskDef} {stepId : String}
    {input out : Val} {l l1 : Ledger} {ev1 : List Event}
    (h : execTask td stepId input l = (.ok out, l1, ev1)) :
    ∃ r, ledLookup l1 (td.slug, stepId) = some r ∧ r.complete = true ∧
      r.output = out ∧ (invokedKeys ev1).length ≤ 1 := by
  cases hl : ledLookup l (td.slug, stepId) with
  | some r =>
    cases hc : r.complete with
    | true =>
      rw [execTask_cached stepId input hl hc] at h
      rw [Prod.mk.injEq, Prod.mk.injEq] at h
      obtain ⟨h1, h2, h3⟩ := h
      injection h1 with hout
      rw [← h2, ← h3]
      exact ⟨r, hl, hc, hout, by simp [invokedKeys]⟩
    | false =>
      rw [execTask_fresh_some stepId input hl hc] at h
      obtain ⟨hled, hinv⟩ := execAttempt_ok h
      refine ⟨successRecord out (r.attempts + 1), ?_, rfl, rfl, ?_⟩
      · rw [hled]
        exact ledLookup_ledSet_self _ _ _
      · rw [hinv]
        simp
  | none =>
    rw [execTask_fresh_none stepId input hl] at h
    obtain ⟨hled, hinv⟩ := execAttempt_ok h
    refine ⟨successRecord out 1, ?_, rfl, rfl, ?_⟩
    · rw [hled]
      exact ledLookup_ledSet_self _ _ _
    · rw [hinv]
      simp

/-- With `onFail` configured, a fresh attempt emits the `onFail`
callback event exactly when its outcome is a terminal failure. -/
theorem execAttempt_calledOnFail_iff (td : TaskDef) (stepId : String)
    (input : Val) (l : Ledger) (n : Nat) (cb : Err → Except Err Unit)
    (hcb : td.onFail = some cb) :
    (Event.calledOnFail td.slug stepId ∈
        (execAttempt td stepId input l n).2.2 ↔
     ∃ e, (execAttempt td stepId input l n).1 = .failed e) := by
  cases ha : td.handler input n with
  | ok out =>
    by_cases hs : td.outputSchema out
    · rw [execAttempt_handler_ok stepId l ha hs]
      simp only [successEvents]
      cases hos : td.onSuccess with
      | none => simp
      | some c => cases hc2 : c out <;> simp [hc2]
    · rw [execAttempt_schema_violation stepId l ha (by simpa using hs)]
      simp [failEvents, hcb]
  | error e =>
    by_cases hr : n + 1 ≤ td.retries
    · rw [execAttempt_handler_error_retry stepId l ha hr]
      simp
    · rw [execAttempt_handler_error_exhausted stepId l ha hr]
      simp [failEvents, hcb]

/-- Dispatching a claimed job never mutates a completed StepRecord in
its checkpoint ledger. -/
theorem execJob_preserves_complete (reg : Registry) (j : Job)
    {k : String × String} {r : StepRecord}
    (h : ledLookup j.taskStatus k = some r) (hc : r.complete = true) :
    ledLookup (execJob reg j).2.1 k = some r := by
  cases hk : j.kind with
  | task slug =>
    have hp := @runTask_preserves_complete reg j.taskStatus k r slug
      topLevelStepId j.input h hc
    rcases hrt : runTask reg slug topLevelStepId j.input j.taskStatus
      with ⟨o, l', ev⟩
    rw [hrt] at hp
    cases o <;> simp only [execJob, hk, hrt] <;> exact hp
  | workflow slug =>
    cases hw : reg.findWorkflow slug with
    | none => simp only [execJob, hk, hw]; exact h
    | some wd =>
      simp only [execJob, hk, hw]
      exact runProg_preserves_complete reg (wd.prog j.input) h hc

/-- A fresh attempt signals "retry" only for a recoverable handler
failure with retries remaining. -/
theorem execAttempt_retry_cond {td : TaskDef} {stepId : String}
    {input : Val} {l : Ledger} {n : Nat}
    (h : (execAttempt td stepId input l n).1 = .retry) :
    ∃ e, td.handler input n = .error e ∧ n + 1 ≤ td.retries := by
  cases ha : td.handler input n with
  | ok out =>
    by_cases hs : td.outputSchema out
    · rw [execAttempt_handler_ok stepId l ha hs] at h
      cases h
    · rw [execAttempt_schema_violation stepId l ha (by simpa using hs)]
        at h
      cases h
  | error e =>
    by_cases hr : n + 1 ≤ td.retries
    · exact ⟨e, rfl, hr⟩
    · rw [execAttempt_handler_error_exhausted stepId l ha hr] at h
      cases h

/-! ## Concrete definitions for witnesses -/

/-- A task that always fails, with two retries (as in the spec's
`createPost` scenario). -/
def wTdFail : TaskDef :=
  { slug := "createPost", inputSchema := fun _ => true,
    outputSchema := fun _ => true,
    handler := fun _ _ => Except.error "boom", retries := 2,
    onSuccess := none, onFail := none }

def wRegFail : Registry := { tasks := [wTdFail], workflows := [] }

def wJobFail : Job :=
  { id := 0, kind := .task "createPost", input := 7, queue := "default",
    status := .queued, taskStatus := [], totalTried := 0,
    createdAt := 0, updatedAt := 0, lock := none }

/-! ## Claim theorems -/

/-- A registered task that succeeds immediately. -/
def wTdOk : TaskDef :=
  { slug := "t", inputSchema := fun _ => true,
    outputSchema := fun _ => true,
    handler := fun v _ => Except.ok (v + 1), retries := 0,
    onSuccess := none, onFail := none }

def wRegOk : Registry := { tasks := [wTdOk], workflows := [] }

/-- C2: `runTask` is idempotent per (taskSlug, stepId).  (a) Whenever
the StepRecord is already complete, the call returns the cached output
immediately, with no handler invocation and no ledger write.  (b) Any
call returning `ok` performed at most one handler invocation, and a
second call with the same (taskSlug, stepId) — in the same or a resumed
execution — is a pure cache hit returning the same output with no
invocation, so the handler runs at most once overall. -/
theorem claim_c2_runTask_idempotent :
    (∀ (reg : Registry) (td : TaskDef) (slug stepId : String)
       (input : Val) (l : Ledger) (r : StepRecord),
       reg.findTask slug = some td →
       ledLookup l (td.slug, stepId) = some r → r.complete = true →
       runTask reg slug stepId input l = (.ok r.output, l, [])) ∧
    (∀ (reg : Registry) (slug stepId : String) (input input2 : Val)
       (l : Ledger) (out : Val) (l1 : Ledger) (ev1 : List Event),
       runTask reg slug stepId input l = (.ok out, l1, ev1) →
       (invokedKeys ev1).length ≤ 1 ∧
       runTask reg slug stepId input2 l1 = (.ok out, l1, [])) := by
  constructor
  · intro reg td slug stepId input l r hreg hl hc
    unfold runTask
    rw [hreg]
    exact execTask_cached stepId input hl hc
  · intro reg slug stepId input input2 l out l1 ev1 h
    unfold runTask at h ⊢
    cases hf : reg.findTask slug with
    | none =>
      rw [hf] at h
      cases h
    | some td =>
      rw [hf] at h
      obtain ⟨r, hl1, hc, hout, hlen⟩ := execTask_ok_record h
      refine ⟨hlen, ?_⟩
      show execTask td stepId input2 l1 = _
      rw [execTask_cached stepId input2 hl1 hc, hout]

/-- Witness for C2: a cache hit returns the stored output with no
invocation, and after one successful call the second call with the same
step id is a pure cache hit. -/
theorem claim_c2_witness :
    runTask wRegOk "t" "s1" 5 [(("t", "s1"), successRecord 9 1)] =
      (.ok 9, [(("t", "s1"), successRecord 9 1)], []) ∧
    runTask wRegOk "t" "s1" 99 [(("t", "s1"), successRecord 6 1)] =
      (.ok 6, [(("t", "s1"), successRecord 6 1)], []) :=
  ⟨claim_c2_runTask_idempotent.1 wRegOk wTdOk "t" "s1" 5
      [(("t", "s1"), successRecord 9 1)] (successRecord 9 1) rfl rfl rfl,
   (claim_c2_runTask_idempotent.2 wRegOk "t" "s1" 5 99 [] 6
      [(("t", "s1"), successRecord 6 1)] [Event.invoked "t" "s1"]
      rfl).2⟩

/-- C10: when `runTask` returns an output to the workflow handler, that
value is exactly the output persisted in the job's checkpoint ledger at
`taskStatus[taskSlug][stepId]` — and it stays there through any further
workflow execution, so a handler may read either interchangeably. -/
theorem claim_c10_output_persisted
    (reg : Registry) (slug stepId : String) (input : Val) (l : Ledger)
    (out : Val) (l' : Ledger) (ev : List Event) (td : TaskDef)
    (hreg : reg.findTask slug = some td)
    (h : runTask reg slug stepId input l = (.ok out, l', ev)) :
    ∃ r, ledLookup l' (td.slug, stepId) = some r ∧ r.complete = true ∧
      r.output = out ∧
      ∀ p, ledLookup (runProg reg p l').2.1 (td.slug, stepId) = some r := by
  unfold runTask at h
  rw [hreg] at h
  obtain ⟨r, hl', hc, hout, -⟩ := execTask_ok_record h
  exact ⟨r, hl', hc, hout,
    fun p => runProg_preserves_complete reg p hl' hc⟩

/-- Witness for C10: a fresh successful `runTask` call persists its
returned output, and it survives a subsequent workflow pass. -/
theorem claim_c10_witness :
    ∃ r, ledLookup [(("t", "s1"), successRecord 6 1)]
        (wTdOk.slug, "s1") = some r ∧ r.complete = true ∧
      r.output = 6 ∧
      ∀ p, ledLookup
        (runProg wRegOk p [(("t", "s1"), successRecord 6 1)]).2.1
        (wTdOk.slug, "s1") = some r :=
  claim_c10_output_persisted wRegOk "t" "s1" 5 [] 6
    [(("t", "s1"), successRecord 6 1)] [Event.invoked "t" "s1"] wTdOk
    rfl rfl

/-- C5: once `taskStatus[slug][stepId]` has `complete = true`, that
StepRecord is never mutated again: not by a Task Executor pass, not by
re-running a workflow handler, and not by a full Runner pass over the
store (for stores with unique job ids, every job keeps every completed
StepRecord unchanged). -/
theorem claim_c5_complete_immutable :
    (∀ (td : TaskDef) (stepId : String) (input : Val) (l : Ledger)
       (k : String × String) (r : StepRecord),
       ledLookup l k = some r → r.complete = true →
       ledLookup (execTask td stepId input l).2.1 k = some r) ∧
    (∀ (reg : Registry) (p : WfProg) (l : Ledger) (k : String × String)
       (r : StepRecord),
       ledLookup l k = some r → r.complete = true →
       ledLookup (runProg reg p l).2.1 k = some r) ∧
    (∀ (reg : Registry) (st : Store) (q : String) (now tok : Nat),
       (st.jobs.map Job.id).Nodup →
       List.Forall₂
         (fun e e' : Job => e.id = e'.id ∧
           ∀ k r, ledLookup e.taskStatus k = some r → r.complete = true →
             ledLookup e'.taskStatus k = some r)
         st.jobs (runnerPassOne reg st q now tok).1.jobs) := by
  refine ⟨fun td stepId input l k r h hc =>
      execTask_preserves_complete stepId input h hc,
    fun reg p l k r h hc => runProg_preserves_complete reg p h hc,
    fun reg st q now tok hnd => ?_⟩
  cases hcl : oldestQueued st.jobs q with
  | none =>
    unfold runnerPassOne
    rw [claimNext_of_none now tok hcl]
    exact List.forall₂_same.mpr fun e _ => ⟨rfl, fun k r h _ => h⟩
  | some j =>
    have hjmem := (oldestQueued_mem hcl).1
    unfold runnerPassOne
    rw [claimNext_of_some now tok hcl]
    show List.Forall₂ _ st.jobs
      ((finalize
        { st with
           jobs := st.jobs.map fun e =>
             if e.id = j.id then claimedJob e now tok else e }
        (claimedJob j now tok).id
        (statusOfResult (execJob reg (claimedJob j now tok)).1)
        (execJob reg (claimedJob j now tok)).2.1 now).jobs)
    unfold finalize
    simp only [List.map_map]
    apply forall2_map_self
    intro e he
    by_cases hid : e.id = j.id
    · have hej : e = j :=
        List.inj_on_of_nodup_map hnd he hjmem hid
      subst hej
      constructor
      · simp [Function.comp, claimedJob, hid]
      · intro k r h hc
        have hres : ledLookup (execJob reg (claimedJob e now tok)).2.1 k =
            some r :=
          execJob_preserves_complete reg (claimedJob e now tok) h hc
        simpa [Function.comp, claimedJob, hid] using hres
    · constructor
      · simp [Function.comp, claimedJob, hid]
      · intro k r h hc
        simpa [Function.comp, claimedJob, hid] using h

/-- Witness for C5: a completed record survives an unrelated Task
Executor pass and a full Runner pass over a concrete store. -/
theorem claim_c5_witness :
    ledLookup
      (execTask wTdOk "s2" 5 [(("t", "s1"), successRecord 9 1)]).2.1
      ("t", "s1") = some (successRecord 9 1) ∧
    List.Forall₂
      (fun e e' : Job => e.id = e'.id ∧
        ∀ k r, ledLookup e.taskStatus k = some r → r.complete = true →
          ledLookup e'.taskStatus k = some r)
      [wJobFail]
      (runnerPassOne wRegFail { jobs := [wJobFail], nextId := 1 }
        "default" 0 0).1.jobs :=
  ⟨claim_c5_complete_immutable.1 wTdOk "s2" 5
      [(("t", "s1"), successRecord 9 1)] ("t", "s1")
      (successRecord 9 1) rfl rfl,
   claim_c5_complete_immutable.2.2 wRegFail
      { jobs := [wJobFail], nextId := 1 } "default" 0 0 (by simp)⟩

/-- A registered task whose input schema accepts only `0`. -/
def wTdStrict : TaskDef :=
  { slug := "strict", inputSchema := fun v => v == 0,
    outputSchema := fun _ => true,
    handler := fun v _ => Except.ok v, retries := 0,
    onSuccess := none, onFail := none }

def wReg2 : Registry := { tasks := [wTdOk, wTdStrict], workflows := [] }

def wStEmpty : Store := { jobs := [], nextId := 0 }

/-- C8: `enqueue` fails with `UnknownDefinition` when the referenced
slug does not exist, fails with `SchemaValidationError` when the input
does not match the definition's schema — in both cases returning the
store unchanged, so no Job is created — and on success inserts exactly
one new Job with status `queued`. -/
theorem claim_c8_enqueue_validation :
    (∀ (reg : Registry) (st : Store) (kind : JobKind) (input : Val)
       (queue : Option String) (now : Nat),
       lookupInputSchema reg kind = none →
       enqueue reg st kind input queue now =
         (.error .UnknownDefinition, st)) ∧
    (∀ (reg : Registry) (st : Store) (kind : JobKind) (input : Val)
       (queue : Option String) (now : Nat) (sch : Val → Bool),
       lookupInputSchema reg kind = some sch → sch input = false →
       enqueue reg st kind input queue now =
         (.error .SchemaValidationError, st)) ∧
    (∀ (reg : Registry) (st : Store) (kind : JobKind) (input : Val)
       (queue : Option String) (now : Nat) (sch : Val → Bool),
       lookupInputSchema reg kind = some sch → sch input = true →
       ∃ j, enqueue reg st kind input queue now =
           (.ok j, { jobs := st.jobs ++ [j], nextId := st.nextId + 1 }) ∧
         j.status = .queued ∧ j.id = st.nextId ∧ j.input = input ∧
         j.kind = kind ∧ j.taskStatus = []) := by
  refine ⟨?_, ?_, ?_⟩
  · intro reg st kind input queue now h
    unfold enqueue
    rw [h]
  · intro reg st kind input queue now sch h hs
    unfold enqueue
    rw [h]
    simp [hs]
  · intro reg st kind input queue now sch h hs
    have he : enqueue reg st kind input queue now =
        (.ok { id := st.nextId, kind := kind, input := input,
               queue := queue.getD (defaultQueueFor reg kind),
               status := .queued, taskStatus := [], totalTried := 0,
               createdAt := now, updatedAt := now, lock := none },
         { jobs := st.jobs ++
             [{ id := st.nextId, kind := kind, input := input,
                queue := queue.getD (defaultQueueFor reg kind),
                status := .queued, taskStatus := [], totalTried := 0,
                createdAt := now, updatedAt := now, lock := none }],
           nextId := st.nextId + 1 }) := by
      unfold enqueue
      rw [h]
      simp [hs]
    exact ⟨_, he, rfl, rfl, rfl, rfl, rfl⟩

/-- Witness for C8: unknown slug is rejected, schema mismatch is
rejected (store unchanged both times), and a valid enqueue inserts a
queued job. -/
theorem claim_c8_witness :
    enqueue wReg2 wStEmpty (.task "zzz") 5 none 0 =
      (.error .UnknownDefinition, wStEmpty) ∧
    enqueue wReg2 wStEmpty (.task "strict") 5 none 0 =
      (.error .SchemaValidationError, wStEmpty) ∧
    ∃ j, enqueue wReg2 wStEmpty (.task "t") 5 none 0 =
        (.ok j, { jobs := wStEmpty.jobs ++ [j],
                  nextId := wStEmpty.nextId + 1 }) ∧
      j.status = .queued ∧ j.id = wStEmpty.nextId ∧ j.input = 5 ∧
      j.kind = .task "t" ∧ j.taskStatus = [] :=
  ⟨claim_c8_enqueue_validation.1 wReg2 wStEmpty (.task "zzz") 5 none 0 rfl,
   claim_c8_enqueue_validation.2.1 wReg2 wStEmpty (.task "strict") 5
     none 0 wTdStrict.inputSchema rfl rfl,
   claim_c8_enqueue_validation.2.2 wReg2 wStEmpty (.task "t") 5 none 0
     wTdOk.inputSchema rfl rfl⟩

/-- A task whose `onSuccess` callback itself fails, and one with an
`onFail` callback and an always-failing handler. -/
def wTdCb : TaskDef :=
  { slug := "cb", inputSchema := fun _ => true,
    outputSchema := fun _ => true,
    handler := fun v _ => Except.ok v, retries := 0,
    onSuccess := some fun _ => Except.error "cbboom",
    onFail := some fun _ => Except.ok () }

def wTdCbFail : TaskDef :=
  { slug := "cbf", inputSchema := fun _ => true,
    outputSchema := fun _ => true,
    handler := fun _ _ => Except.error "x", retries := 0,
    onSuccess := some fun _ => Except.ok (),
    onFail := some fun _ => Except.ok () }

/-- C9: (a) on a successful handler invocation the configured
`onSuccess` runs and — even when `onSuccess` itself fails — the
StepRecord stays `{complete := true, output}`; (b) `onSuccess` runs
exactly when the fresh invocation succeeds; (c) the configured `onFail`
runs exactly when the pass ends in terminal failure; (d) for a failing
handler attempt, terminal failure is exactly `attempts > retries`. -/
theorem claim_c9_callbacks :
    (∀ (td : TaskDef) (stepId : String) (input : Val) (l : Ledger)
       (n : Nat) (out : Val) (cb : Val → Except Err Unit),
       td.handler input n = .ok out → td.outputSchema out = true →
       td.onSuccess = some cb →
       (execAttempt td stepId input l n).1 = .ok out ∧
       ledLookup (execAttempt td stepId input l n).2.1
           (td.slug, stepId) = some (successRecord out (n + 1)) ∧
       ∃ b, Event.calledOnSuccess td.slug stepId b ∈
         (execAttempt td stepId input l n).2.2) ∧
    (∀ (td : TaskDef) (stepId : String) (input : Val) (l : Ledger)
       (n : Nat) (cb : Val → Except Err Unit),
       td.onSuccess = some cb →
       ((∃ b, Event.calledOnSuccess td.slug stepId b ∈
           (execAttempt td stepId input l n).2.2) ↔
        ∃ out, (execAttempt td stepId input l n).1 = .ok out)) ∧
    (∀ (td : TaskDef) (stepId : String) (input : Val) (l : Ledger)
       (cb : Err → Except Err Unit),
       td.onFail = some cb →
       (Event.calledOnFail td.slug stepId ∈
           (execTask td stepId input l).2.2 ↔
        ∃ e, (execTask td stepId input l).1 = .failed e)) ∧
    (∀ (td : TaskDef) (stepId : String) (input : Val) (l : Ledger)
       (n : Nat) (e : Err),
       td.handler input n = .error e →
       ((execAttempt td stepId input l n).1 = .failed e ↔
        td.retries < n + 1)) := by
  refine ⟨?_, ?_, ?_, ?_⟩
  · intro td stepId input l n out cb ha hs hcb
    rw [execAttempt_handler_ok stepId l ha hs]
    refine ⟨rfl, ledLookup_ledSet_self _ _ _, ?_⟩
    simp only [successEvents, hcb]
    cases hr : cb out
    · exact ⟨false, by simp [hr]⟩
    · exact ⟨true, by simp [hr]⟩
  · intro td stepId input l n cb hcb
    cases ha : td.handler input n with
    | ok out =>
      by_cases hs : td.outputSchema out
      · rw [execAttempt_handler_ok stepId l ha hs]
        simp only [successEvents, hcb]
        constructor
        · intro
          exact ⟨out, rfl⟩
        · intro
          cases hr : cb out
          · exact ⟨false, by simp [hr]⟩
          · exact ⟨true, by simp [hr]⟩
      · rw [execAttempt_schema_violation stepId l ha (by simpa using hs)]
        simp only [failEvents]
        constructor
        · rintro ⟨b, hb⟩
          cases hof : td.onFail <;> simp [hof] at hb
        · rintro ⟨o, ho⟩
          cases ho
    | error e =>
      by_cases hr : n + 1 ≤ td.retries
      · rw [execAttempt_handler_error_retry stepId l ha hr]
        constructor
        · rintro ⟨b, hb⟩
          simp at hb
        · rintro ⟨o, ho⟩
          cases ho
      · rw [execAttempt_handler_error_exhausted stepId l ha hr]
        simp only [failEvents]
        constructor
        · rintro ⟨b, hb⟩
          cases hof : td.onFail <;> simp [hof] at hb
        · rintro ⟨o, ho⟩
          cases ho
  · intro td stepId input l cb hcb
    cases hl : ledLookup l (td.slug, stepId) with
    | some r =>
      cases hc : r.complete with
      | true =>
        rw [execTask_cached stepId input hl hc]
        simp
      | false =>
        rw [execTask_fresh_some stepId input hl hc]
        exact execAttempt_calledOnFail_iff td stepId input l r.attempts
          cb hcb
    | none =>
      rw [execTask_fresh_none stepId input hl]
      exact execAttempt_calledOnFail_iff td stepId input l 0 cb hcb
  · intro td stepId input l n e ha
    by_cases hr : n + 1 ≤ td.retries
    · rw [execAttempt_handler_error_retry stepId l ha hr]
      simp
      omega
    · rw [execAttempt_handler_error_exhausted stepId l ha hr]
      simp
      omega

/-- Witness for C9: a failing `onSuccess` does not revert the recorded
success; `onFail` fires exactly on terminal failure; with retries 0 a
failing attempt is terminal. -/
theorem claim_c9_witness :
    ((execAttempt wTdCb "s" 4 [] 0).1 = .ok 4 ∧
     ledLookup (execAttempt wTdCb "s" 4 [] 0).2.1 ("cb", "s") =
       some (successRecord 4 1) ∧
     ∃ b, Event.calledOnSuccess "cb" "s" b ∈
       (execAttempt wTdCb "s" 4 [] 0).2.2) ∧
    (Event.calledOnFail "cbf" "s" ∈ (execTask wTdCbFail "s" 4 []).2.2 ↔
     ∃ e, (execTask wTdCbFail "s" 4 []).1 = .failed e) ∧
    ((execAttempt wTdCbFail "s" 4 [] 0).1 = .failed "x" ↔
     wTdCbFail.retries < 0 + 1) :=
  ⟨claim_c9_callbacks.1 wTdCb "s" 4 [] 0 4
      (fun _ => Except.error "cbboom") rfl rfl rfl,
   claim_c9_callbacks.2.2.1 wTdCbFail "s" 4 []
      (fun _ => Except.ok ()) rfl,
   claim_c9_callbacks.2.2.2 wTdCbFail "s" 4 [] 0 "x" rfl⟩

/-- C4: claim exclusivity.  (a) Against a store holding exactly one
queued job of the queue, a sequence of atomic `claimNext` calls (the
store-level interleaving of that many concurrent callers) hands that
job to exactly the first caller and none to every other.  (b) Across
any number of claims on any store, no two claims ever return the same
job: the claimed ids are pairwise distinct. -/
theorem claim_c4_claim_exclusivity :
    (∀ (st : Store) (q : String) (now t : Nat) (ts : List Nat) (j : Job),
       st.jobs.countP (fun x => decide (isQueuedIn q x)) = 1 →
       j ∈ st.jobs → isQueuedIn q j →
       (claimAll q now st (t :: ts)).1 =
         some (claimedJob j now t) :: List.replicate ts.length none) ∧
    (∀ (st : Store) (q : String) (now : Nat) (toks : List Nat),
       (((claimAll q now st toks).1.filterMap id).map Job.id).Nodup) := by
  refine ⟨?_, fun st q now toks => claimAll_nodup toks st⟩
  intro st q now t ts j hcount hmem hq
  cases hcl : oldestQueued st.jobs q with
  | none => exact absurd hq (oldestQueued_eq_none.mp hcl j hmem)
  | some b =>
    obtain ⟨hbm, hbq⟩ := oldestQueued_mem hcl
    have hbj : b = j := by
      by_contra hne
      have h2 := two_le_countP (fun x => decide (isQueuedIn q x))
        hbm hmem hne (by simpa using hbq) (by simpa using hq)
      omega
    subst hbj
    have hcn := claimNext_of_some now t hcl
    have hnone : ∀ x ∈ (st.jobs.map fun e =>
        if e.id = b.id then claimedJob e now t else e), ¬ isQueuedIn q x := by
      intro x hx hqx
      obtain ⟨e, he, hex⟩ := List.mem_map.mp hx
      by_cases heb : e.id = b.id
      · rw [if_pos heb] at hex
        rw [← hex] at hqx
        cases hqx.2
      · rw [if_neg heb] at hex
        rw [← hex] at hqx
        have hne : e ≠ b := fun hc => heb (by rw [hc])
        have h2 := two_le_countP (fun x => decide (isQueuedIn q x))
          he hbm hne (by simpa using hqx) (by simpa using hbq)
        omega
    have hrest := @claimAll_none q now ts
      { st with jobs := st.jobs.map fun e =>
          if e.id = b.id then claimedJob e now t else e } hnone
    simp only [claimAll, hcn, hrest]

def wStOne : Store := { jobs := [wJobFail], nextId := 1 }

/-- Witness for C4: three concurrent claims against a store with one
queued job — the first caller gets it, the other two get none, and the
claimed ids are duplicate-free. -/
theorem claim_c4_witness :
    (claimAll "default" 0 wStOne [5, 6, 7]).1 =
      some (claimedJob wJobFail 0 5) :: List.replicate 2 none ∧
    (((claimAll "default" 0 wStOne [5, 6, 7]).1.filterMap id).map
      Job.id).Nodup :=
  ⟨claim_c4_claim_exclusivity.1 wStOne "default" 0 5 [6, 7] wJobFail
      rfl (List.mem_singleton.mpr rfl) ⟨rfl, rfl⟩,
   claim_c4_claim_exclusivity.2 wStOne "default" 0 [5, 6, 7]⟩

/-- C7: FIFO claiming.  (a) A successful `claimNext` picks a queued
member of the queue with minimal `createdAt` among its queued jobs, and
transitions it to `running`.  (b) Two successive claims on the same
queue come back in non-decreasing `createdAt` order — so jobs enqueued
at `t1 < t2 < t3` are claimed in that order. -/
theorem claim_c7_fifo_claiming :
    (∀ (st : Store) (q : String) (now tok : Nat) (j' : Job),
       (claimNext st q now tok).1 = some j' →
       ∃ j ∈ st.jobs, isQueuedIn q j ∧ j' = claimedJob j now tok ∧
         j'.status = .running ∧
         ∀ j₂ ∈ st.jobs, isQueuedIn q j₂ →
           j'.createdAt ≤ j₂.createdAt) ∧
    (∀ (st : Store) (q : String) (now1 tok1 now2 tok2 : Nat)
       (j1 j2 : Job),
       (claimNext st q now1 tok1).1 = some j1 →
       (claimNext (claimNext st q now1 tok1).2 q now2 tok2).1 = some j2 →
       j1.createdAt ≤ j2.createdAt) := by
  constructor
  · intro st q now tok j' h
    rcases hcn : claimNext st q now tok with ⟨oj, st'⟩
    rw [hcn] at h
    simp only at h
    subst h
    obtain ⟨b, hbm, hbq, hbj, -, hmin⟩ := claimNext_some_src hcn
    subst hbj
    exact ⟨b, hbm, hbq, rfl, rfl, hmin⟩
  · intro st q now1 tok1 now2 tok2 j1 j2 h1 h2
    rcases hcn1 : claimNext st q now1 tok1 with ⟨oj1, st'⟩
    rw [hcn1] at h1 h2
    simp only at h1 h2
    subst h1
    rcases hcn2 : claimNext st' q now2 tok2 with ⟨oj2, st''⟩
    rw [hcn2] at h2
    simp only at h2
    subst h2
    obtain ⟨b1, hb1m, hb1q, hb1j, hjobs1, hmin1⟩ :=
      claimNext_some_src hcn1
    obtain ⟨b2, hb2m, hb2q, hb2j, -, -⟩ := claimNext_some_src hcn2
    subst hb1j
    subst hb2j
    rw [hjobs1] at hb2m
    obtain ⟨e, he, hee⟩ := List.mem_map.mp hb2m
    by_cases heb : e.id = b1.id
    · rw [if_pos heb] at hee
      rw [← hee] at hb2q
      cases hb2q.2
    · rw [if_neg heb] at hee
      rw [← hee] at hb2q
      have := hmin1 e he hb2q
      rw [← hee]
      exact this

def wJobA : Job :=
  { id := 1, kind := .task "t", input := 0, queue := "default",
    status := .queued, taskStatus := [], totalTried := 0,
    createdAt := 10, updatedAt := 0, lock := none }

def wJobB : Job :=
  { id := 2, kind := .task "t", input := 0, queue := "default",
    status := .queued, taskStatus := [], totalTried := 0,
    createdAt := 20, updatedAt := 0, lock := none }

def wJobC : Job :=
  { id := 3, kind := .task "t", input := 0, queue := "default",
    status := .queued, taskStatus := [], totalTried := 0,
    createdAt := 30, updatedAt := 0, lock := none }

def wSt3 : Store := { jobs := [wJobC, wJobA, wJobB], nextId := 4 }

/-- Witness for C7: on a store holding jobs created at 10, 20 and 30,
the first claim takes the oldest (10) and the next claim's job is no
older. -/
theorem claim_c7_witness :
    (∃ j ∈ wSt3.jobs, isQueuedIn "default" j ∧
       claimedJob wJobA 0 0 = claimedJob j 0 0 ∧
       (claimedJob wJobA 0 0).status = .running ∧
       ∀ j₂ ∈ wSt3.jobs, isQueuedIn "default" j₂ →
         (claimedJob wJobA 0 0).createdAt ≤ j₂.createdAt) ∧
    (claimedJob wJobA 0 0).createdAt ≤ (claimedJob wJobB 1 1).createdAt :=
  ⟨claim_c7_fifo_claiming.1 wSt3 "default" 0 0 (claimedJob wJobA 0 0) rfl,
   claim_c7_fifo_claiming.2 wSt3 "default" 0 0 1 1 (claimedJob wJobA 0 0)
     (claimedJob wJobB 1 1) rfl rfl⟩

/-- C6: a Job's status only moves along the allowed edges.  (1) Enqueue
creates the new job `queued` and touches no existing job.  (2) A claim
moves jobs only `queued → running` (stores with unique ids).  (3) The
rest of a Runner pass moves jobs only `running → completed/failed/queued`.
(4) The move back to `queued` happens only on a recoverable handler
failure with retries remaining. -/
theorem claim_c6_status_transitions :
    (∀ (reg : Registry) (st : Store) (kind : JobKind) (input : Val)
       (queue : Option String) (now : Nat) (j : Job) (st' : Store),
       enqueue reg st kind input queue now = (.ok j, st') →
       j.status = .queued ∧ st'.jobs = st.jobs ++ [j]) ∧
    (∀ (st : Store) (q : String) (now tok : Nat),
       (st.jobs.map Job.id).Nodup →
       List.Forall₂
         (fun e e' : Job => e'.status = e.status ∨
           (e.status = .queued ∧ e'.status = .running))
         st.jobs (claimNext st q now tok).2.jobs) ∧
    (∀ (reg : Registry) (st : Store) (q : String) (now tok : Nat),
       List.Forall₂
         (fun e e' : Job => e'.status = e.status ∨
           (e.status = .running ∧
             (e'.status = .completed ∨ e'.status = .failed ∨
              e'.status = .queued)))
         (claimNext st q now tok).2.jobs
         (runnerPassOne reg st q now tok).1.jobs) ∧
    (∀ (td : TaskDef) (stepId : String) (input : Val) (l : Ledger),
       (execTask td stepId input l).1 = .retry →
       ∃ e n, td.handler input n = .error e ∧ n + 1 ≤ td.retries) := by
  refine ⟨?_, ?_, ?_, ?_⟩
  · intro reg st kind input queue now j st' h
    unfold enqueue at h
    cases hls : lookupInputSchema reg kind with
    | none =>
      simp only [hls] at h
      simp at h
    | some sch =>
      simp only [hls] at h
      by_cases hsch : sch input = true
      · rw [if_pos hsch] at h
        rw [Prod.mk.injEq] at h
        obtain ⟨h1, h2⟩ := h
        injection h1 with h1
        subst h1
        rw [← h2]
        exact ⟨rfl, rfl⟩
      · rw [if_neg hsch] at h
        simp at h
  · intro st q now tok hnd
    cases hcl : oldestQueued st.jobs q with
    | none =>
      rw [claimNext_of_none now tok hcl]
      exact List.forall₂_same.mpr fun e _ => Or.inl rfl
    | some b =>
      obtain ⟨hbm, hbq⟩ := oldestQueued_mem hcl
      rw [claimNext_of_some now tok hcl]
      show List.Forall₂ _ st.jobs (st.jobs.map fun e =>
        if e.id = b.id then claimedJob e now tok else e)
      apply forall2_map_self
      intro e he
      by_cases heb : e.id = b.id
      · have heq : e = b := List.inj_on_of_nodup_map hnd he hbm heb
        rw [if_pos heb]
        exact Or.inr ⟨heq ▸ hbq.2, rfl⟩
      · rw [if_neg heb]
        exact Or.inl rfl
  · intro reg st q now tok
    cases hcl : oldestQueued st.jobs q with
    | none =>
      have hcn := claimNext_of_none now tok hcl
      simp only [runnerPassOne, hcn]
      exact List.forall₂_same.mpr fun e _ => Or.inl rfl
    | some b =>
      have hcn := claimNext_of_some now tok hcl
      have hrun := claimNext_id_running hcn
      rcases hex : execJob reg (claimedJob b now tok) with ⟨r, l', ev⟩
      simp only [runnerPassOne, hcn, hex]
      unfold finalize
      apply forall2_map_self
      intro e he
      by_cases heb : e.id = (claimedJob b now tok).id
      · rw [if_pos heb]
        refine Or.inr ⟨hrun e he heb, ?_⟩
        cases r <;> simp [statusOfResult]
      · rw [if_neg heb]
        exact Or.inl rfl
  · intro td stepId input l h
    cases hl : ledLookup l (td.slug, stepId) with
    | some r =>
      cases hc : r.complete with
      | true =>
        rw [execTask_cached stepId input hl hc] at h
        cases h
      | false =>
        rw [execTask_fresh_some stepId input hl hc] at h
        obtain ⟨e, ha, hr⟩ := execAttempt_retry_cond h
        exact ⟨e, r.attempts, ha, hr⟩
    | none =>
      rw [execTask_fresh_none stepId input hl] at h
      obtain ⟨e, ha, hr⟩ := execAttempt_retry_cond h
      exact ⟨e, 0, ha, hr⟩

def wEnqJob : Job :=
  { id := 0, kind := .task "t", input := 5, queue := "default",
    status := .queued, taskStatus := [], totalTried := 0,
    createdAt := 0, updatedAt := 0, lock := none }

/-- Witness for C6: each transition lemma applied at a concrete store:
a fresh enqueue is queued, a claim on the three-job store moves only
queued→running, a full pass finalizes off `running`, and a concrete
retry outcome exposes its recoverable failure. -/
theorem claim_c6_witness :
    (wEnqJob.status = .queued ∧
      ({ jobs := wStEmpty.jobs ++ [wEnqJob], nextId := 1 } : Store).jobs =
        wStEmpty.jobs ++ [wEnqJob]) ∧
    List.Forall₂
      (fun e e' : Job => e'.status = e.status ∨
        (e.status = .queued ∧ e'.status = .running))
      wSt3.jobs (claimNext wSt3 "default" 0 0).2.jobs ∧
    List.Forall₂
      (fun e e' : Job => e'.status = e.status ∨
        (e.status = .running ∧
          (e'.status = .completed ∨ e'.status = .failed ∨
           e'.status = .queued)))
      (claimNext wStOne "default" 0 0).2.jobs
      (runnerPassOne wRegFail wStOne "default" 0 0).1.jobs ∧
    ∃ e n, wTdFail.handler 7 n = .error e ∧ n + 1 ≤ wTdFail.retries :=
  ⟨claim_c6_status_transitions.1 wReg2 wStEmpty (.task "t") 5 none 0
      wEnqJob { jobs := wStEmpty.jobs ++ [wEnqJob], nextId := 1 } rfl,
   claim_c6_status_transitions.2.1 wSt3 "default" 0 0 (by simp [wSt3,
     wJobA, wJobB, wJobC]),
   claim_c6_status_transitions.2.2.1 wRegFail wStOne "default" 0 0,
   claim_c6_status_transitions.2.2.2 wTdFail "1" 7 [] rfl⟩

/-- C3: for every task definition with `retries = N` and a handler that
fails on every invocation, running the owning Job (enqueued fresh, the
sole job of its store) for `N + 1` passes — and any number of further
passes — leaves the Job terminally `failed` with the StepRecord's
attempts counter equal to `N + 1`, and exactly `N + 1` handler
invocations happened in total. -/
theorem claim_c3_retries_exhausted
    (reg : Registry) (slug q : String) (td : TaskDef)
    (ef : Val → Nat → Err) (j0 : Job) (nid extra : Nat)
    (hreg : reg.findTask slug = some td)
    (hfail : ∀ v n, td.handler v n = Except.error (ef v n))
    (hkind : j0.kind = .task slug) (hq : j0.queue = q)
    (hst : j0.status = .queued) (hled : j0.taskStatus = []) :
    c3Failed slug (td.retries + 1)
      (runnerPasses reg q (td.retries + 1 + extra)
        { jobs := [j0], nextId := nid }).1 ∧
    invokedKeys
      (runnerPasses reg q (td.retries + 1 + extra)
        { jobs := [j0], nextId := nid }).2 =
      List.replicate (td.retries + 1) (slug, topLevelStepId) := by
  have hinv : c3Inv slug q j0.input 0 { jobs := [j0], nextId := nid } :=
    ⟨j0, rfl, hkind, rfl, hq, hst, Or.inl ⟨rfl, by rw [hled]; rfl⟩⟩
  obtain ⟨h1, h2⟩ := c3_run hreg hfail (td.retries + 1 + extra) 0 _ hinv
    (Nat.zero_le _) (by omega)
  exact ⟨h1, by simpa using h2⟩

/-- Witness for C3 at the spec's scenario: `createPost`, retries 2,
always-throwing handler — after the passes the job is `failed` with 3
recorded attempts and exactly 3 invocations. -/
theorem claim_c3_witness :
    c3Failed "createPost" 3
      (runnerPasses wRegFail "default" 4
        { jobs := [wJobFail], nextId := 1 }).1 ∧
    invokedKeys
      (runnerPasses wRegFail "default" 4
        { jobs := [wJobFail], nextId := 1 }).2 =
      List.replicate 3 ("createPost", topLevelStepId) :=
  claim_c3_retries_exhausted wRegFail "createPost" "default" wTdFail
    (fun _ _ => "boom") wJobFail 1 1 rfl (fun _ _ => rfl) rfl rfl rfl rfl

/-- C1: resume correctness of workflows.  For a workflow `A; B; C`
(steps `"1"`, `"2"`, `"3"`) where `A` succeeds and `B` fails with
retries remaining: in the first pass `A` then `B` run and the handler
invocation is abandoned at `B` — `C` never runs this pass — and the Job
returns to `queued` with `A` checkpointed complete.  In the next pass
only `B` is re-invoked: `A` is replayed from cache, its StepRecord
untouched, and the code after `B` still does not run. -/
theorem claim_c1_resume_from_failure
    (reg : Registry) (sw sa sb sc : String) (wd : WorkflowDef)
    (tdA tdB tdC : TaskDef) (iA : Val) (iB iC : Val → Val)
    (a : Val) (e0 e1 : Err) (j0 : Job) (nid : Nat) (q : String)
    (now1 tok1 now2 tok2 : Nat)
    (hw : reg.findWorkflow sw = some wd)
    (hA : reg.findTask sa = some tdA)
    (hB : reg.findTask sb = some tdB)
    (hprog : wd.prog j0.input =
      .call sa "1" iA fun oa =>
      .call sb "2" (iB oa) fun ob =>
      .call sc "3" (iC ob) fun _ => .done)
    (hAok : tdA.handler iA 0 = .ok a)
    (hAsch : tdA.outputSchema a = true)
    (hB0 : tdB.handler (iB a) 0 = .error e0)
    (hB1 : tdB.handler (iB a) 1 = .error e1)
    (hBret : 2 ≤ tdB.retries)
    (hkind : j0.kind = .workflow sw)
    (hq : j0.queue = q) (hst : j0.status = .queued)
    (hled : j0.taskStatus = []) :
    invokedKeys
      (runnerPassOne reg { jobs := [j0], nextId := nid } q now1 tok1).2 =
      [(tdA.slug, "1"), (tdB.slug, "2")] ∧
    ∃ j1,
      (runnerPassOne reg { jobs := [j0], nextId := nid } q now1 tok1).1 =
        { jobs := [j1], nextId := nid } ∧
      j1.status = .queued ∧
      ledLookup j1.taskStatus (tdA.slug, "1") =
        some (successRecord a 1) ∧
      ledLookup j1.taskStatus (tdB.slug, "2") = some (failRecord e0 1) ∧
      ledLookup j1.taskStatus (tdC.slug, "3") = none ∧
      invokedKeys
        (runnerPassOne reg { jobs := [j1], nextId := nid } q
          now2 tok2).2 = [(tdB.slug, "2")] ∧
      ∃ j2,
        (runnerPassOne reg { jobs := [j1], nextId := nid } q
          now2 tok2).1 = { jobs := [j2], nextId := nid } ∧
        j2.status = .queued ∧
        ledLookup j2.taskStatus (tdA.slug, "1") =
          some (successRecord a 1) ∧
        ledLookup j2.taskStatus (tdB.slug, "2") =
          some (failRecord e1 2) := by
  have h12 : ("1" : String) ≠ "2" := by decide
  have h21 : ("2" : String) ≠ "1" := by decide
  have h31 : ("3" : String) ≠ "1" := by decide
  have h32 : ("3" : String) ≠ "2" := by decide
  have hABne : ((tdA.slug, "1") : String × String) ≠ (tdB.slug, "2") :=
    fun h => h12 (congrArg Prod.snd h)
  have hBAne : ((tdB.slug, "2") : String × String) ≠ (tdA.slug, "1") :=
    fun h => h21 (congrArg Prod.snd h)
  have hCAne : ((tdC.slug, "3") : String × String) ≠ (tdA.slug, "1") :=
    fun h => h31 (congrArg Prod.snd h)
  have hCBne : ((tdC.slug, "3") : String × String) ≠ (tdB.slug, "2") :=
    fun h => h32 (congrArg Prod.snd h)
  have e1A : execTask tdA "1" iA [] =
      (.ok a, ledSet [] (tdA.slug, "1") (successRecord a 1),
       successEvents tdA "1" a) := by
    have h0 : ledLookup ([] : Ledger) (tdA.slug, "1") = none := rfl
    rw [execTask_fresh_none "1" iA h0,
      execAttempt_handler_ok "1" [] hAok hAsch]
  have hlkB1 : ledLookup (ledSet [] (tdA.slug, "1") (successRecord a 1))
      (tdB.slug, "2") = none := by
    rw [ledLookup_ledSet_ne _ _ hBAne]
    rfl
  have e1B : execTask tdB "2" (iB a)
      (ledSet [] (tdA.slug, "1") (successRecord a 1)) =
      (.retry,
       ledSet (ledSet [] (tdA.slug, "1") (successRecord a 1))
         (tdB.slug, "2") (failRecord e0 1),
       [Event.invoked tdB.slug "2"]) := by
    rw [execTask_fresh_none "2" (iB a) hlkB1,
      execAttempt_handler_error_retry "2" _ hB0 (by omega)]
  have hrun1 : runProg reg
      (.call sa "1" iA fun oa =>
       .call sb "2" (iB oa) fun ob =>
       .call sc "3" (iC ob) fun _ => .done) [] =
      (.retry,
       ledSet (ledSet [] (tdA.slug, "1") (successRecord a 1))
         (tdB.slug, "2") (failRecord e0 1),
       successEvents tdA "1" a ++ [Event.invoked tdB.slug "2"]) := by
    simp only [runProg, runTask, hA, hB, e1A, e1B]
  have hexec1 : execJob reg j0 =
      (.retry,
       ledSet (ledSet [] (tdA.slug, "1") (successRecord a 1))
         (tdB.slug, "2") (failRecord e0 1),
       successEvents tdA "1" a ++ [Event.invoked tdB.slug "2"]) := by
    simp only [execJob, hkind, hw, hled, hprog, hrun1]
  have hp1 := @runnerPassOne_singleton reg j0 nid q now1 tok1 hq hst
  rw [hexec1] at hp1
  simp only [statusOfResult] at hp1
  have hlkA1 : ledLookup
      (ledSet (ledSet [] (tdA.slug, "1") (successRecord a 1))
        (tdB.slug, "2") (failRecord e0 1)) (tdA.slug, "1") =
      some (successRecord a 1) := by
    rw [ledLookup_ledSet_ne _ _ hABne, ledLookup_ledSet_self]
  have hlkB : ledLookup
      (ledSet (ledSet [] (tdA.slug, "1") (successRecord a 1))
        (tdB.slug, "2") (failRecord e0 1)) (tdB.slug, "2") =
      some (failRecord e0 1) := ledLookup_ledSet_self _ _ _
  have hlkC : ledLookup
      (ledSet (ledSet [] (tdA.slug, "1") (successRecord a 1))
        (tdB.slug, "2") (failRecord e0 1)) (tdC.slug, "3") = none := by
    rw [ledLookup_ledSet_ne _ _ hCBne, ledLookup_ledSet_ne _ _ hCAne]
    rfl
  have e2A : execTask tdA "1" iA
      (ledSet (ledSet [] (tdA.slug, "1") (successRecord a 1))
        (tdB.slug, "2") (failRecord e0 1)) =
      (.ok a,
       ledSet (ledSet [] (tdA.slug, "1") (successRecord a 1))
         (tdB.slug, "2") (failRecord e0 1), []) := by
    rw [execTask_cached "1" iA hlkA1 rfl]
    rfl
  have e2B : execTask tdB "2" (iB a)
      (ledSet (ledSet [] (tdA.slug, "1") (successRecord a 1))
        (tdB.slug, "2") (failRecord e0 1)) =
      (.retry,
       ledSet (ledSet (ledSet [] (tdA.slug, "1") (successRecord a 1))
         (tdB.slug, "2") (failRecord e0 1)) (tdB.slug, "2")
         (failRecord e1 2),
       [Event.invoked tdB.slug "2"]) := by
    rw [execTask_fresh_some "2" (iB a) hlkB rfl]
    show execAttempt tdB "2" (iB a) _ 1 = _
    rw [execAttempt_handler_error_retry "2" _ hB1 (by omega)]
  have hrun2 : runProg reg
      (.call sa "1" iA fun oa =>
       .call sb "2" (iB oa) fun ob =>
       .call sc "3" (iC ob) fun _ => .done)
      (ledSet (ledSet [] (tdA.slug, "1") (successRecord a 1))
        (tdB.slug, "2") (failRecord e0 1)) =
      (.retry,
       ledSet (ledSet (ledSet [] (tdA.slug, "1") (successRecord a 1))
         (tdB.slug, "2") (failRecord e0 1)) (tdB.slug, "2")
         (failRecord e1 2),
       [Event.invoked tdB.slug "2"]) := by
    simp only [runProg, runTask, hA, hB, e2A, e2B, List.nil_append]
  refine ⟨?_, ?_⟩
  · rw [hp1]
    rw [invokedKeys_append, invokedKeys_successEvents]
    simp [invokedKeys]
  refine ⟨{ j0 with
              status := .queued,
              taskStatus :=
                ledSet (ledSet [] (tdA.slug, "1") (successRecord a 1))
                  (tdB.slug, "2") (failRecord e0 1),
              totalTried := j0.totalTried + 1,
              lock := none,
              updatedAt := now1 },
    ?_, rfl, hlkA1, hlkB, hlkC, ?_, ?_⟩
  · rw [hp1]
  · have hexec2 : execJob reg
        { j0 with
            status := .queued,
            taskStatus :=
              ledSet (ledSet [] (tdA.slug, "1") (successRecord a 1))
                (tdB.slug, "2") (failRecord e0 1),
            totalTried := j0.totalTried + 1,
            lock := none,
            updatedAt := now1 } =
        (.retry,
         ledSet (ledSet (ledSet [] (tdA.slug, "1") (successRecord a 1))
           (tdB.slug, "2") (failRecord e0 1)) (tdB.slug, "2")
           (failRecord e1 2),
         [Event.invoked tdB.slug "2"]) := by
      simp only [execJob, hkind, hw, hprog, hrun2]
    have hp2 := @runnerPassOne_singleton reg
      { j0 with
          status := .queued,
          taskStatus :=
            ledSet (ledSet [] (tdA.slug, "1") (successRecord a 1))
              (tdB.slug, "2") (failRecord e0 1),
          totalTried := j0.totalTried + 1,
          lock := none,
          updatedAt := now1 } nid q
      now2 tok2 hq rfl
    rw [hexec2] at hp2
    rw [hp2]
    simp [invokedKeys]
  · have hexec2 : execJob reg
        { j0 with
            status := .queued,
            taskStatus :=
              ledSet (ledSet [] (tdA.slug, "1") (successRecord a 1))
                (tdB.slug, "2") (failRecord e0 1),
            totalTried := j0.totalTried + 1,
            lock := none,
            updatedAt := now1 } =
        (.retry,
         ledSet (ledSet (ledSet [] (tdA.slug, "1") (successRecord a 1))
           (tdB.slug, "2") (failRecord e0 1)) (tdB.slug, "2")
           (failRecord e1 2),
         [Event.invoked tdB.slug "2"]) := by
      simp only [execJob, hkind, hw, hprog, hrun2]
    have hp2 := @runnerPassOne_singleton reg
      { j0 with
          status := .queued,
          taskStatus :=
            ledSet (ledSet [] (tdA.slug, "1") (successRecord a 1))
              (tdB.slug, "2") (failRecord e0 1),
          totalTried := j0.totalTried + 1,
          lock := none,
          updatedAt := now1 } nid q
      now2 tok2 hq rfl
    rw [hexec2] at hp2
    simp only [statusOfResult] at hp2
    refine ⟨_, by rw [hp2], rfl, ?_, ledLookup_ledSet_self _ _ _⟩
    rw [ledLookup_ledSet_ne _ _ hABne]
    exact hlkA1

def wTdA : TaskDef :=
  { slug := "A", inputSchema := fun _ => true,
    outputSchema := fun _ => true,
    handler := fun v _ => Except.ok (v + 1), retries := 0,
    onSuccess := none, onFail := none }

def wTdB : TaskDef :=
  { slug := "B", inputSchema := fun _ => true,
    outputSchema := fun _ => true,
    handler := fun _ _ => Except.error "bfail", retries := 2,
    onSuccess := none, onFail := none }

def wTdC : TaskDef :=
  { slug := "C", inputSchema := fun _ => true,
    outputSchema := fun _ => true,
    handler := fun v _ => Except.ok (v + 100), retries := 0,
    onSuccess := none, onFail := none }

def wWd : WorkflowDef :=
  { slug := "W", inputSchema := fun _ => true,
    prog := fun inp =>
      .call "A" "1" inp fun oa =>
      .call "B" "2" oa fun ob =>
      .call "C" "3" ob fun _ => .done,
    defaultQueue := "default" }

def wRegW : Registry :=
  { tasks := [wTdA, wTdB, wTdC], workflows := [wWd] }

def wJobW : Job :=
  { id := 0, kind := .workflow "W", input := 5, queue := "default",
    status := .queued, taskStatus := [], totalTried := 0,
    createdAt := 0, updatedAt := 0, lock := none }

/-- Witness for C1: the concrete workflow `A; B; C` where `B` always
fails with retries 2 — the first pass invokes `A` then `B` and stops,
the second invokes only `B`, with `A`'s checkpoint untouched. -/
theorem claim_c1_witness :
    invokedKeys
      (runnerPassOne wRegW { jobs := [wJobW], nextId := 1 }
        "default" 0 0).2 = [("A", "1"), ("B", "2")] ∧
    ∃ j1,
      (runnerPassOne wRegW { jobs := [wJobW], nextId := 1 }
        "default" 0 0).1 = { jobs := [j1], nextId := 1 } ∧
      j1.status = .queued ∧
      ledLookup j1.taskStatus ("A", "1") = some (successRecord 6 1) ∧
      ledLookup j1.taskStatus ("B", "2") =
        some (failRecord "bfail" 1) ∧
      ledLookup j1.taskStatus ("C", "3") = none ∧
      invokedKeys
        (runnerPassOne wRegW { jobs := [j1], nextId := 1 }
          "default" 1 1).2 = [("B", "2")] ∧
      ∃ j2,
        (runnerPassOne wRegW { jobs := [j1], nextId := 1 }
          "default" 1 1).1 = { jobs := [j2], nextId := 1 } ∧
        j2.status = .queued ∧
        ledLookup j2.taskStatus ("A", "1") = some (successRecord 6 1) ∧
        ledLookup j2.taskStatus ("B", "2") =
          some (failRecord "bfail" 2) :=
  claim_c1_resume_from_failure wRegW "W" "A" "B" "C" wWd wTdA wTdB wTdC
    5 (fun x => x) (fun x => x) 6 "bfail" "bfail" wJobW 1 "default"
    0 0 1 1 rfl rfl rfl rfl rfl rfl rfl rfl (by decide) rfl rfl rfl rfl

end Payload

